import Mathlib

/-!
Static site server (apps/backend/main.go)

A shallow embedding of the route set-up performed by `main`, `FileServer` and
`AddHTMLRoute`, together with the string and path functions of the Go standard
library that their results depend on.

A Go string is a sequence of bytes; it is modelled as a list of characters, one
for each byte.  Every string operation the program uses (membership of an ASCII
character, comparison of the last byte with the slash, trimming at either end,
concatenation) works byte by byte.

The router is chi's Mux, the one `chi.NewRouter()` returns, for the patterns
without parameters: static patterns and patterns that end in the wildcard.
Requests carry the method and the two paths of the URL; the query string and
the headers are not part of the model.
-/

namespace Nectar

/-- A Go string. -/
abbrev GoString := List Char

/-! ## Package strings -/

/-- strings.ContainsAny: some character of `chars` occurs in `s`. -/
def ContainsAny (s chars : GoString) : Bool :=
  s.any (fun c => chars.contains c)

/-- strings.HasSuffix: `len(s) >= len(suffix) && s[len(s)-len(suffix):] == suffix`. -/
def HasSuffix (s suffix : GoString) : Bool :=
  decide (suffix.length ≤ s.length) && (s.drop (s.length - suffix.length) == suffix)

/-- strings.TrimSuffix: `s[:len(s)-len(suffix)]` when `s` has the suffix, else `s`. -/
def TrimSuffix (s suffix : GoString) : GoString :=
  if HasSuffix s suffix then s.take (s.length - suffix.length) else s

/-- strings.HasPrefix: `len(s) >= len(prefix) && s[:len(prefix)] == prefix`. -/
def HasPrefix (s pre : GoString) : Bool :=
  decide (pre.length ≤ s.length) && (s.take pre.length == pre)

/-- strings.TrimPrefix: `s[len(prefix):]` when `s` has the prefix, else `s`. -/
def TrimPrefix (s pre : GoString) : GoString :=
  if HasPrefix s pre then s.drop pre.length else s

/-- Indexing `s[i]` with a signed index: `none` is the run-time fault
"index out of range". -/
def byteAt (s : GoString) (i : Int) : Option Char :=
  if 0 ≤ i ∧ i < (s.length : Int) then s.get? i.toNat else none

/-! ## Package path/filepath (slash-separated paths) -/

/-- The path separator. -/
def Separator : Char := '/'

/-- The test `r == n || os.IsPathSeparator(path[r])` on the unread input. -/
def atEnd : GoString → Bool
  | [] => true
  | c :: _ => c == Separator

/-- The backtracking loop of Clean,
`for out.w > dotdot && !os.IsPathSeparator(out.index(out.w)) { out.w-- }`,
as a function of the write index `w`. -/
def backtrackLoop (buf : GoString) (dotdot : Nat) : Nat → Nat
  | 0 => 0
  | w + 1 =>
    if dotdot < w + 1 ∧ buf.get? (w + 1) ≠ some Separator then backtrackLoop buf dotdot w
    else w + 1

/-- The main loop of filepath.Clean.  The unread input `path[r:]` is the list
argument, the output buffer `out` holds the `out.w` bytes written so far, and
the result is the final buffer with the final value of `dotdot`.  Each
iteration consumes at least one byte, so `fuel = len(path)` iterations are
enough. -/
def cleanLoop (rooted : Bool) : Nat → GoString → GoString → Nat → GoString × Nat
  | 0, _, out, dotdot => (out, dotdot)
  | _ + 1, [], out, dotdot => (out, dotdot)
  | fuel + 1, c :: rest, out, dotdot =>
    if c == Separator then
      -- empty path element
      cleanLoop rooted fuel rest out dotdot
    else if c == '.' && atEnd rest then
      -- . element
      cleanLoop rooted fuel rest out dotdot
    else if c == '.' && (rest.head? == some '.' && atEnd rest.tail) then
      -- .. element: remove to last separator
      if dotdot < out.length then
        cleanLoop rooted fuel rest.tail
          (out.take (backtrackLoop out dotdot (out.length - 1))) dotdot
      else if !rooted then
        let out1 := if 0 < out.length then out ++ [Separator] else out
        let out2 := out1 ++ ['.', '.']
        cleanLoop rooted fuel rest.tail out2 out2.length
      else
        cleanLoop rooted fuel rest.tail out dotdot
    else
      -- real path element: add slash if needed, then copy the element
      let out1 :=
        if (rooted && out.length != 1) || (!rooted && out.length != 0) then out ++ [Separator]
        else out
      cleanLoop rooted fuel ((c :: rest).dropWhile (fun x => x != Separator))
        (out1 ++ (c :: rest).takeWhile (fun x => x != Separator)) dotdot

/-- filepath.Clean on a system whose separator is the slash and that has no
volume names. -/
def Clean (path : GoString) : GoString :=
  if path = [] then ['.']
  else
    let rooted := path.head? == some Separator
    let st :=
      if rooted then cleanLoop rooted path.length (path.drop 1) [Separator] 1
      else cleanLoop rooted path.length path [] 0
    if st.1.length = 0 then ['.'] else st.1

/-- filepath.Join: the elements from the first non-empty one on, joined by the
separator and cleaned; the empty string when every element is empty. -/
def Join : List GoString → GoString
  | [] => []
  | e :: rest =>
    if e ≠ [] then Clean ([Separator].intercalate (e :: rest)) else Join rest

/-! ## Package net/url -/

/-- The test `ishex` of net/url. -/
def ishex (c : Char) : Bool :=
  ('0' ≤ c && c ≤ '9') || ('a' ≤ c && c ≤ 'f') || ('A' ≤ c && c ≤ 'F')

/-- The value `unhex` of net/url gives a hexadecimal digit. -/
def unhex (c : Char) : Nat :=
  if '0' ≤ c && c ≤ '9' then c.toNat - '0'.toNat
  else if 'a' ≤ c && c ≤ 'f' then c.toNat - 'a'.toNat + 10
  else if 'A' ≤ c && c ≤ 'F' then c.toNat - 'A'.toNat + 10
  else 0

/-- The function `unescape` of net/url in the mode for paths: every "%XX" is
replaced by the byte it names; `none` is the error for a "%" that two
hexadecimal digits do not follow. -/
def unescape : GoString → Option GoString
  | [] => some []
  | c :: rest =>
    if c = '%' then
      match rest with
      | h1 :: h2 :: rest2 =>
        if ishex h1 && ishex h2 then
          (unescape rest2).map (fun t => Char.ofNat (16 * unhex h1 + unhex h2) :: t)
        else none
      | _ => none
    else (unescape rest).map (fun t => c :: t)

/-! ## The router and the handlers -/

/-- The middlewares main installs; `Timeout d` carries its duration in
nanoseconds, the unit of time.Duration. -/
inductive Middleware
  | RequestID
  | RealIP
  | Logger
  | Recoverer
  | Timeout (d : Int)
  deriving DecidableEq, Repr

/-- The constant time.Second, in nanoseconds. -/
def Second : Int := 1000000000

/-- HTTP request methods. -/
inductive Method
  | GET | HEAD | POST | PUT | PATCH | DELETE | OPTIONS | CONNECT | TRACE
  deriving DecidableEq, Repr

/-- The three handlers the program builds: `http.RedirectHandler(url, code)`,
the closure of FileServer over `root`, and the closure of AddHTMLRoute over
`filePath`. -/
inductive Handler
  | redirect (url : GoString) (code : Nat)
  | fileServer (root : GoString)
  | serveFile (filePath : GoString)
  deriving DecidableEq, Repr

/-- One call the router accepted: `r.Use(m)` or `r.Get(pattern, h)` (a route
for the method GET). -/
inductive Entry
  | use (m : Middleware)
  | route (method : Method) (pattern : GoString) (handler : Handler)
  deriving DecidableEq, Repr

/-- The router, as the calls it accepted so far, oldest first. -/
structure Router where
  entries : List Entry
  deriving DecidableEq, Repr

/-- The router `chi.NewRouter()` returns. -/
def NewRouter : Router := ⟨[]⟩

/-- A registered route. -/
structure Route where
  method : Method
  pattern : GoString
  handler : Handler
  deriving DecidableEq, Repr

/-- The routes registered on the router, oldest first. -/
def Router.routes (r : Router) : List Route :=
  r.entries.filterMap fun e =>
    match e with
    | Entry.use _ => none
    | Entry.route m p h => some ⟨m, p, h⟩

/-- The middleware chain of the router, outermost first. -/
def Router.middlewares (r : Router) : List Middleware :=
  r.entries.filterMap fun e =>
    match e with
    | Entry.use m => some m
    | Entry.route _ _ _ => none

/-- A run-time fault: a panic with its message, the panic of chi for a routing
pattern that does not begin with a slash (its message names the pattern), or
an index out of range. -/
inductive Fault
  | panic (msg : String)
  | routingPattern (pattern : GoString)
  | indexOutOfRange
  deriving DecidableEq, Repr

/-- The state a call leaves the router in, and the fault that ended the call,
if one did. -/
structure Outcome where
  router : Router
  fault : Option Fault
  deriving DecidableEq, Repr

/-- The statements after a call: they run on the router the call left, unless
the call ended in a fault, which then ends the caller too. -/
def Outcome.andThen (o : Outcome) (f : Router → Outcome) : Outcome :=
  match o.fault with
  | some _ => o
  | none => f o.router

/-- The call `r.Use(m)`.  chi panics when a route has been registered
before. -/
def Router.Use (r : Router) (m : Middleware) : Outcome :=
  if r.routes ≠ [] then
    ⟨r, some (Fault.panic "chi: all middlewares must be defined before routes on a mux")⟩
  else ⟨⟨r.entries ++ [Entry.use m]⟩, none⟩

/-- The call `r.Get(pattern, h)`.  chi panics, before it registers anything,
when `len(pattern) == 0 || pattern[0] != '/'`.  A pattern with parameter
syntax (braces, or a wildcard before its end) is recorded as written: what chi
makes of it is not modelled, and FileServer never passes one. -/
def Router.Get (r : Router) (pattern : GoString) (h : Handler) : Outcome :=
  if pattern.length = 0 ∨ pattern.head? ≠ some '/' then ⟨r, some (Fault.routingPattern pattern)⟩
  else ⟨⟨r.entries ++ [Entry.route Method.GET pattern h]⟩, none⟩

/-- The characters FileServer rejects. -/
def reserved : GoString := ['{', '}', '*']

/-- FileServer (main.go, lines 38-55).  The condition of line 43 is evaluated
left to right, so the index expression `path[len(path)-1]` is reached only
when `path != "/"`; `none` stands for its fault. -/
def FileServer (r : Router) (path : GoString) (root : GoString) : Outcome :=
  if ContainsAny path reserved then
    ⟨r, some (Fault.panic "FileServer does not permit any URL parameters.")⟩
  else
    let cond : Option Bool :=
      if path ≠ ['/'] then (byteAt path ((path.length : Int) - 1)).map (fun c => c != '/')
      else some false
    match cond with
    | none => ⟨r, some Fault.indexOutOfRange⟩
    | some true =>
      (r.Get path (Handler.redirect (path ++ ['/']) 301)).andThen fun r1 =>
        let path1 := path ++ ['/']
        let path2 := path1 ++ ['*']
        r1.Get path2 (Handler.fileServer root)
    | some false =>
      let path2 := path ++ ['*']
      r.Get path2 (Handler.fileServer root)

/-- AddHTMLRoute (main.go, lines 57-61). -/
def AddHTMLRoute (r : Router) (routePath : GoString) (filePath : GoString) : Outcome :=
  r.Get routePath (Handler.serveFile filePath)

/-- The directory `baseDir` of main (line 26). -/
def baseDir (workDir : GoString) : GoString :=
  Join [workDir, "../ui/dist".toList]

/-- The directory `staticDir` of main (line 27). -/
def staticDir (workDir : GoString) : GoString :=
  Join [workDir, "../ui/dist/_next/static".toList]

/-- Lines 15-24 of main: the new router and the five calls of Use. -/
def mainUses : Outcome :=
  ((((NewRouter.Use Middleware.RequestID).andThen fun r =>
    r.Use Middleware.RealIP).andThen fun r =>
    r.Use Middleware.Logger).andThen fun r =>
    r.Use Middleware.Recoverer).andThen fun r =>
    r.Use (Middleware.Timeout (60 * Second))

/-- The router at line 25 of main: the new router with the five middlewares. -/
def mainMiddlewares : Router := mainUses.router

/-- The function main (lines 14-36) up to the call of ListenAndServe, for the
working directory `workDir` that os.Getwd returned (the empty string when it
failed: its error is dropped).  A fault in a call ends main. -/
def main (workDir : GoString) : Outcome :=
  mainUses.andThen fun r =>
    let baseDir := baseDir workDir
    let staticDir := staticDir workDir
    (FileServer r "/_next/static".toList staticDir).andThen fun r =>
      (AddHTMLRoute r "/".toList (Join [baseDir, "index.html".toList])).andThen fun r =>
        (AddHTMLRoute r "/classic-form".toList
          (Join [baseDir, "classic-form.html".toList])).andThen fun r =>
          AddHTMLRoute r "/paper-form".toList (Join [baseDir, "paper-form.html".toList])

/-! ## Serving a request -/

/-- A request: its method, and the fields Path and RawPath of its URL.  Path
is the decoded path; RawPath is the path as it was sent when that is not the
default encoding of Path, and empty otherwise. -/
structure Request where
  method : Method
  path : GoString
  rawPath : GoString
  deriving DecidableEq, Repr

/-- What the URL parser guarantees of a request: RawPath is empty or decodes to
Path. -/
def Request.wellFormed (req : Request) : Bool :=
  req.rawPath == [] || unescape req.rawPath == some req.path

/-- The path chi routes on: RawPath when it is set, else Path, and "/" when
that is empty. -/
def Request.routePath (req : Request) : GoString :=
  let routePath := if req.rawPath ≠ [] then req.rawPath else req.path
  if routePath = [] then ['/'] else routePath

/-- What a handler does with a request: the library call that writes the
reply, with the arguments and the URL path it works on. -/
inductive Reply
  | redirect (url : GoString) (code : Nat)
  | fileServer (root : GoString) (upath : GoString)
  | serveFile (filePath : GoString) (upath : GoString)
  | notFound
  | methodNotAllowed
  deriving DecidableEq, Repr

/-- The handler `http.StripPrefix(pre, h)`: `h` itself for the empty prefix;
otherwise Path and RawPath with the prefix trimmed go to `h` when that made
Path shorter, and RawPath as well if it is set; the reply is http.NotFound
when it did not. -/
def StripPrefix (pre : GoString) (h : Request → Reply) (req : Request) : Reply :=
  if pre = [] then h req
  else
    let p := TrimPrefix req.path pre
    let rp := TrimPrefix req.rawPath pre
    if p.length < req.path.length ∧ (req.rawPath = [] ∨ rp.length < req.rawPath.length) then
      h { req with path := p, rawPath := rp }
    else Reply.notFound

/-- The handler `http.FileServer(root)`, which looks the URL path of the
request up under `root`. -/
def httpFileServer (root : GoString) (req : Request) : Reply :=
  Reply.fileServer root req.path

/-- The handler of a route serving a request; `routePattern` is the value of
`rctx.RoutePattern()`, the pattern of the route that matched. -/
def Handler.ServeHTTP (h : Handler) (routePattern : GoString) (req : Request) : Reply :=
  match h with
  | Handler.redirect url code => Reply.redirect url code
  | Handler.fileServer root =>
    let pathPrefix := TrimSuffix routePattern ['/', '*']
    StripPrefix pathPrefix (httpFileServer root) req
  | Handler.serveFile filePath => Reply.serveFile filePath req.path

/-- Whether a pattern ends in the wildcard. -/
def isWildcard (pattern : GoString) : Bool :=
  HasSuffix pattern ['*']

/-- Whether a route pattern matches a routing path, for the patterns without
parameters: a pattern ending in the wildcard matches every path that
continues what stands before the wildcard, any other pattern matches itself. -/
def matchPattern (pattern path : GoString) : Bool :=
  if isWildcard pattern then HasPrefix path (pattern.take (pattern.length - 1))
  else pattern == path

/-- Whether chi keeps the route `a` when the route `b`, registered later,
matches the same path: a static pattern wins over a wildcard, and of two
wildcards the one with more text before it.  Otherwise the two patterns are
the same and the later registration has replaced the earlier. -/
def keeps (a b : Route) : Bool :=
  (!isWildcard a.pattern && isWildcard b.pattern) ||
    (isWildcard a.pattern && isWildcard b.pattern && decide (b.pattern.length < a.pattern.length))

/-- The route chi finds for a method and a routing path. -/
def Router.findRoute (r : Router) (method : Method) (path : GoString) : Option Route :=
  r.routes.foldl
    (fun best rt =>
      if rt.method == method && matchPattern rt.pattern path then
        match best with
        | some b => if keeps b rt then some b else some rt
        | none => some rt
      else best)
    none

/-- The router serving a request: the handler of the route found for the
method and the routing path; 405 when routes match the path but none has the
method, and 404 when no route matches the path. -/
def Router.ServeHTTP (r : Router) (req : Request) : Reply :=
  match r.findRoute req.method req.routePath with
  | some rt => rt.handler.ServeHTTP rt.pattern req
  | none =>
    if r.routes.any (fun rt => matchPattern rt.pattern req.routePath) then
      Reply.methodNotAllowed
    else Reply.notFound

/-- The files on disk at one moment: the contents of the regular file a name
leads to, if there is one. -/
abbrev FileSystem := GoString → Option GoString

/-- A response: status and body of a served file, status and Location of a
redirect, or the status of an error reply. -/
inductive Response
  | content (status : Nat) (body : GoString)
  | redirect (status : Nat) (location : GoString)
  | error (status : Nat)
  deriving DecidableEq, Repr

/-- The status of a response. -/
def Response.status : Response → Nat
  | Response.content s _ => s
  | Response.redirect s _ => s
  | Response.error s => s

/-- The test `containsDotDot` of net/http: some element between slashes or
backslashes is "..". -/
def containsDotDot (v : GoString) : Bool :=
  (v.splitOnP (fun c => c == '/' || c == '\\')).contains ['.', '.']

/-- The reply of `http.ServeFile(w, r, name)` to a GET without conditional or
range headers, where `upath` is the URL path of the request: 400 when the URL
path has a ".." element, the redirect to "./" when it ends in "/index.html",
and else the contents the file has at that moment with status 200, or 404 when
there is no such file. -/
def ServeFile (fs : FileSystem) (upath name : GoString) : Response :=
  if containsDotDot upath then Response.error 400
  else if HasSuffix upath "/index.html".toList then Response.redirect 301 "./".toList
  else
    match fs name with
    | some body => Response.content 200 body
    | none => Response.error 404

/-- The characters of which a redirect target is taken as it stands: letters,
digits and `-`, `_`, `.`, `~`, `/`. -/
def plainChar (c : Char) : Bool :=
  c.isAlphanum || c == '-' || c == '_' || c == '.' || c == '~' || c == '/'

/-- The Location header `http.Redirect` writes for the target `url`, for the
targets that are a path of plain characters beginning with one slash: the
cleaned path, with the trailing slash of the target kept.  Other targets are
not modelled (`none`). -/
def redirectLocation (url : GoString) : Option GoString :=
  if url.head? = some '/' ∧ (url.drop 1).head? ≠ some '/' ∧ url.all plainChar then
    let trailing := HasSuffix url ['/']
    let cleaned := Clean url
    some (if trailing && !HasSuffix cleaned ['/'] then cleaned ++ ['/'] else cleaned)
  else none

/-- The response a reply amounts to on the file system of that moment, where
the library call is modelled (`none` where it is not: the file server, and
redirects to targets outside the modelled ones). -/
def Reply.respond (fs : FileSystem) : Reply → Option Response
  | Reply.redirect url code => (redirectLocation url).map (Response.redirect code)
  | Reply.fileServer _ _ => none
  | Reply.serveFile filePath upath => some (ServeFile fs upath filePath)
  | Reply.notFound => some (Response.error 404)
  | Reply.methodNotAllowed => some (Response.error 405)

/-- The response of the router to a request, on the file system of that
moment. -/
def Router.respond (r : Router) (fs : FileSystem) (req : Request) : Option Response :=
  (r.ServeHTTP req).respond fs

/-! ## The states of the loop of Clean -/

/-- The loop of Clean on the unread input `p`, with the fuel Clean gives it. -/
def run (rooted : Bool) (p out : GoString) (dotdot : Nat) : GoString × Nat :=
  cleanLoop rooted p.length p out dotdot

/-- A real path element: non-empty, without separator, neither "." nor "..". -/
def IsElem (e : GoString) : Prop :=
  e ≠ [] ∧ Separator ∉ e ∧ e ≠ ['.'] ∧ e ≠ ['.', '.']

/-- The output buffer with the slash Clean adds before a real element. -/
def withSlash (rooted : Bool) (out : GoString) : GoString :=
  if (rooted && out.length != 1) || (!rooted && out.length != 0) then out ++ [Separator]
  else out

/-- The output buffer with the ".." element Clean appends to an unrooted path. -/
def withDotDot (out : GoString) : GoString :=
  (if 0 < out.length then out ++ [Separator] else out) ++ ['.', '.']

/-- The states `(out, dotdot)` the loop of Clean can be in: the initial one,
one more ".." on an unrooted buffer that holds only ".." elements so far
(`dotdot` is its length), or one more real element. -/
inductive Cleaned (rooted : Bool) : GoString → Nat → Prop
  | init : Cleaned rooted (if rooted then [Separator] else []) (if rooted then 1 else 0)
  | dots {b : GoString} {d : Nat} : Cleaned rooted b d → rooted = false → d = b.length →
      Cleaned rooted (withDotDot b) (withDotDot b).length
  | elem {b e : GoString} {d : Nat} : Cleaned rooted b d → IsElem e →
      Cleaned rooted (withSlash rooted b ++ e) d

/-! ## Facts about the string functions -/

theorem containsAny_reserved_false (s : GoString) :
    ContainsAny s reserved = false ↔ ('{' ∉ s ∧ '}' ∉ s ∧ '*' ∉ s) := by
  unfold ContainsAny reserved
  rw [List.any_eq_false]
  constructor
  · intro h
    refine ⟨fun hm => ?_, fun hm => ?_, fun hm => ?_⟩ <;>
    · have := h _ hm
      simp at this
  · rintro ⟨h1, h2, h3⟩ c hc
    simp only [List.contains_eq_any_beq, List.any_cons, List.any_nil, Bool.or_false, Bool.or_eq_true, beq_iff_eq, not_or]
    refine ⟨?_, ?_, ?_⟩ <;> (intro h; subst h; contradiction)

theorem hasPrefix_iff (s p : GoString) : HasPrefix s p = true ↔ p <+: s := by
  unfold HasPrefix
  simp only [Bool.and_eq_true, decide_eq_true_eq, beq_iff_eq]
  constructor
  · rintro ⟨_, h⟩
    exact List.prefix_iff_eq_take.mpr h.symm
  · intro h
    exact ⟨h.length_le, (List.prefix_iff_eq_take.mp h).symm⟩

theorem hasSuffix_iff (s p : GoString) : HasSuffix s p = true ↔ p <:+ s := by
  unfold HasSuffix
  simp only [Bool.and_eq_true, decide_eq_true_eq, beq_iff_eq]
  constructor
  · rintro ⟨_, h⟩
    exact List.suffix_iff_eq_drop.mpr h.symm
  · intro h
    exact ⟨h.length_le, (List.suffix_iff_eq_drop.mp h).symm⟩

theorem trimSuffix_append (s t : GoString) : TrimSuffix (s ++ t) t = s := by
  have h : HasSuffix (s ++ t) t = true := (hasSuffix_iff _ _).mpr (List.suffix_append s t)
  simp [TrimSuffix, h]

theorem trimPrefix_append (s t : GoString) : TrimPrefix (s ++ t) s = t := by
  have h : HasPrefix (s ++ t) s = true := (hasPrefix_iff _ _).mpr (List.prefix_append s t)
  simp [TrimPrefix, h]

theorem byteAt_last (s : GoString) (h : s ≠ []) :
    byteAt s ((s.length : Int) - 1) = s.getLast? := by
  have hlen : 0 < s.length := List.length_pos.mpr h
  have h1 : (0 : Int) ≤ (s.length : Int) - 1 ∧ (s.length : Int) - 1 < (s.length : Int) := by omega
  have h2 : ((s.length : Int) - 1).toNat = s.length - 1 := by omega
  rw [byteAt, if_pos h1, h2, List.getLast?_eq_getElem?]
  simp

theorem byteAt_nil (i : Int) : byteAt [] i = none := by
  unfold byteAt
  split
  · rename_i h; simp at h; omega
  · rfl

/-! ## What the router and FileServer register -/

theorem get_ok (r : Router) (pattern : GoString) (h : Handler)
    (hh : pattern.head? = some '/') :
    r.Get pattern h = ⟨⟨r.entries ++ [Entry.route Method.GET pattern h]⟩, none⟩ := by
  have hl : pattern.length ≠ 0 := by
    intro h0
    rw [List.length_eq_zero.mp h0] at hh
    simp at hh
  simp [Router.Get, hh, hl]

theorem get_bad (r : Router) (pattern : GoString) (h : Handler)
    (hh : pattern.head? ≠ some '/') :
    r.Get pattern h = ⟨r, some (Fault.routingPattern pattern)⟩ := by
  simp [Router.Get, hh]

theorem head?_append_of_head? (P t : GoString) (c : Char) (h : P.head? = some c) :
    (P ++ t).head? = some c := by
  cases P with
  | nil => simp at h
  | cons a l => simpa using h

theorem head?_append_ne (P t : GoString) (c : Char) (hne : P ≠ []) (h : P.head? ≠ some c) :
    (P ++ t).head? ≠ some c := by
  cases P with
  | nil => exact absurd rfl hne
  | cons a l => simpa using h

theorem fileServer_reserved (r : Router) (path root : GoString)
    (h : ContainsAny path reserved = true) :
    FileServer r path root =
      ⟨r, some (Fault.panic "FileServer does not permit any URL parameters.")⟩ := by
  simp [FileServer, h]

theorem fileServer_nil (r : Router) (root : GoString) :
    FileServer r [] root = ⟨r, some Fault.indexOutOfRange⟩ := by
  simp [FileServer, ContainsAny, byteAt_nil]

/-- The condition of line 43 on a path whose last byte is not the slash. -/
theorem fileServer_cond_true (P : GoString) (hne : P ≠ []) (hslash : P.getLast? ≠ some '/') :
    (if P ≠ ['/'] then (byteAt P ((P.length : Int) - 1)).map (fun c => c != '/')
      else some false) = some true := by
  obtain ⟨c, hc⟩ : ∃ c, P.getLast? = some c := by
    cases hl : P.getLast? with
    | none => exact absurd (List.getLast?_eq_none_iff.mp hl) hne
    | some c => exact ⟨c, rfl⟩
  have hP : P ≠ ['/'] := by
    intro h
    subst h
    exact hslash rfl
  have hc2 : (c != '/') = true := by
    rw [bne_iff_ne]
    intro h
    subst h
    exact hslash hc
  rw [if_pos hP, byteAt_last P hne, hc, Option.map_some', hc2]

/-- The condition of line 43 on a path whose last byte is the slash. -/
theorem fileServer_cond_false (P : GoString) (hslash : P.getLast? = some '/') :
    (if P ≠ ['/'] then (byteAt P ((P.length : Int) - 1)).map (fun c => c != '/')
      else some false) = some false := by
  have hne : P ≠ [] := by
    intro h
    subst h
    simp at hslash
  by_cases hP : P = ['/']
  · rw [if_neg (not_not.mpr hP)]
  · rw [if_pos hP, byteAt_last P hne, hslash]
    rfl

theorem fileServer_no_slash (r : Router) (P root : GoString) (hhead : P.head? = some '/')
    (hres : ContainsAny P reserved = false) (hslash : P.getLast? ≠ some '/') :
    FileServer r P root =
      ⟨⟨r.entries ++ [Entry.route Method.GET P (Handler.redirect (P ++ ['/']) 301),
        Entry.route Method.GET (P ++ ['/', '*']) (Handler.fileServer root)]⟩, none⟩ := by
  have hne : P ≠ [] := by
    intro h
    subst h
    simp at hhead
  have h2 : (P ++ ['/'] ++ ['*']).head? = some '/' :=
    head?_append_of_head? _ _ _ (head?_append_of_head? _ _ _ hhead)
  unfold FileServer
  rw [if_neg (by simp [hres])]
  simp only [fileServer_cond_true P hne hslash]
  rw [get_ok _ _ _ hhead]
  simp only [Outcome.andThen]
  rw [get_ok _ _ _ h2]
  simp

theorem fileServer_slash (r : Router) (P root : GoString) (hhead : P.head? = some '/')
    (hres : ContainsAny P reserved = false) (hslash : P.getLast? = some '/') :
    FileServer r P root =
      ⟨⟨r.entries ++ [Entry.route Method.GET (P ++ ['*']) (Handler.fileServer root)]⟩,
        none⟩ := by
  have h2 : (P ++ ['*']).head? = some '/' := head?_append_of_head? _ _ _ hhead
  unfold FileServer
  rw [if_neg (by simp [hres])]
  simp only [fileServer_cond_false P hslash]
  rw [get_ok _ _ _ h2]

theorem fileServer_bad_head (r : Router) (P root : GoString) (hne : P ≠ [])
    (hres : ContainsAny P reserved = false) (hhead : P.head? ≠ some '/') :
    FileServer r P root =
      ⟨r, some (Fault.routingPattern (if P.getLast? = some '/' then P ++ ['*'] else P))⟩ := by
  unfold FileServer
  rw [if_neg (by simp [hres])]
  by_cases hslash : P.getLast? = some '/'
  · simp only [fileServer_cond_false P hslash]
    rw [get_bad _ _ _ (head?_append_ne _ _ _ hne hhead), if_pos hslash]
  · simp only [fileServer_cond_true P hne hslash]
    rw [get_bad _ _ _ hhead, if_neg hslash]
    rfl

/-! ## Facts about routing -/

theorem routes_append_route (es : List Entry) (m : Method) (p : GoString) (h : Handler) :
    Router.routes ⟨es ++ [Entry.route m p h]⟩ = Router.routes ⟨es⟩ ++ [⟨m, p, h⟩] := by
  simp [Router.routes, List.filterMap_append]

theorem routes_NewRouter : NewRouter.routes = [] := rfl

theorem isWildcard_of_not_mem (p : GoString) (h : '*' ∉ p) : isWildcard p = false := by
  cases hh : isWildcard p with
  | false => rfl
  | true =>
    have := (hasSuffix_iff _ _).mp hh
    exact absurd (this.subset (List.mem_singleton_self _)) h

theorem isWildcard_append (p : GoString) : isWildcard (p ++ ['*']) = true :=
  (hasSuffix_iff _ _).mpr (List.suffix_append _ _)

theorem matchPattern_static (p path : GoString) (h : '*' ∉ p) :
    matchPattern p path = (p == path) := by
  simp [matchPattern, isWildcard_of_not_mem p h]

theorem matchPattern_wild (p path : GoString) :
    matchPattern (p ++ ['*']) path = HasPrefix path p := by
  simp [matchPattern, isWildcard_append]

theorem hasPrefix_append_self (s t : GoString) : HasPrefix (s ++ t) s = true :=
  (hasPrefix_iff _ _).mpr (List.prefix_append s t)

theorem hasPrefix_false (s p : GoString) (h : ¬ p <+: s) : HasPrefix s p = false := by
  cases hh : HasPrefix s p with
  | false => rfl
  | true => exact absurd ((hasPrefix_iff _ _).mp hh) h

theorem trimPrefix_length_lt (s p : GoString) (hp : p ≠ []) (h : p <+: s) :
    (TrimPrefix s p).length < s.length := by
  obtain ⟨t, rfl⟩ := h
  rw [trimPrefix_append]
  have := List.length_pos.mpr hp
  simp
  omega

/-- The wildcard handler of the prefix `P` on a request whose path continues
`P` and whose raw path is unset or continues `P` too. -/
theorem fileServer_handler_reply (root P rest raw : GoString) (m : Method) (hne : P ≠ [])
    (hraw : raw = [] ∨ P <+: raw) :
    (Handler.fileServer root).ServeHTTP (P ++ ['/', '*']) ⟨m, P ++ '/' :: rest, raw⟩ =
      Reply.fileServer root ('/' :: rest) := by
  have hraw2 : raw = [] ∨ (TrimPrefix raw P).length < raw.length := by
    rcases hraw with h | h
    · exact Or.inl h
    · exact Or.inr (trimPrefix_length_lt raw P hne h)
  have hlen : ('/' :: rest).length < (P ++ '/' :: rest).length := by
    have := List.length_pos.mpr hne
    simp
    omega
  simp only [Handler.ServeHTTP, trimSuffix_append, StripPrefix, hne, if_false,
    trimPrefix_append, hlen, hraw2, and_self, if_true, httpFileServer]

/-! ## Facts about unescape -/

theorem unescape_cons_plain (c : Char) (rest : GoString) (hc : c ≠ '%') :
    unescape (c :: rest) = (unescape rest).map (fun t => c :: t) := by
  cases rest with
  | nil => simp [unescape, hc]
  | cons a l =>
    cases l with
    | nil => simp [unescape, hc]
    | cons b l2 => simp [unescape, hc]

theorem unescape_append_plain (lit : GoString) (h : '%' ∉ lit) (rest : GoString) :
    unescape (lit ++ rest) = (unescape rest).map (fun t => lit ++ t) := by
  induction lit with
  | nil => simp
  | cons c l ih =>
    have hc : c ≠ '%' := fun e => h (e ▸ List.mem_cons_self _ _)
    have hl : '%' ∉ l := fun e => h (List.mem_cons_of_mem _ e)
    rw [List.cons_append, unescape_cons_plain _ _ hc, ih hl]
    cases unescape rest <;> simp

theorem unescape_plain (lit : GoString) (h : '%' ∉ lit) : unescape lit = some lit := by
  have := unescape_append_plain lit h []
  simpa [unescape] using this

/-- The path of a well-formed request continues every text without "%" that
its routing path continues, and equals it when the routing path does, as long
as the path is not empty. -/
theorem routePath_continues (req : Request) (hwf : req.wellFormed = true) (hne : req.path ≠ [])
    (lit : GoString) (hlit : '%' ∉ lit) (h : lit <+: req.routePath) : lit <+: req.path := by
  unfold Request.wellFormed at hwf
  unfold Request.routePath at h
  by_cases hr : req.rawPath = []
  · simpa [hr, hne] using h
  · simp only [hr, ne_eq, not_false_eq_true, if_true, if_false] at h
    simp only [Bool.or_eq_true, beq_iff_eq, hr, false_or] at hwf
    obtain ⟨t, ht⟩ := h
    rw [← ht, unescape_append_plain lit hlit] at hwf
    cases hu : unescape t with
    | none => simp [hu] at hwf
    | some u =>
      simp only [hu, Option.map_some', Option.some.injEq] at hwf
      exact ⟨u, hwf⟩

theorem routePath_eq (req : Request) (hwf : req.wellFormed = true) (hne : req.path ≠ [])
    (lit : GoString) (hlit : '%' ∉ lit) (h : req.routePath = lit) : req.path = lit := by
  unfold Request.wellFormed at hwf
  unfold Request.routePath at h
  by_cases hr : req.rawPath = []
  · simpa [hr, hne] using h
  · simp only [hr, ne_eq, not_false_eq_true, if_true, if_false] at h
    simp only [Bool.or_eq_true, beq_iff_eq, hr, false_or] at hwf
    rw [h, unescape_plain lit hlit] at hwf
    exact (Option.some.inj hwf).symm

/-! ## Facts about Clean -/

theorem length_dropWhile_le (f : Char → Bool) (l : GoString) :
    (l.dropWhile f).length ≤ l.length :=
  (List.dropWhile_sublist f).length_le

theorem cleanLoop_succ (rooted : Bool) :
    ∀ (fuel : Nat) (p out : GoString) (dd : Nat), p.length ≤ fuel →
      cleanLoop rooted (fuel + 1) p out dd = cleanLoop rooted fuel p out dd := by
  intro fuel
  induction fuel with
  | zero =>
    intro p out dd h
    have : p = [] := List.length_eq_zero.mp (Nat.le_zero.mp h)
    subst this
    simp [cleanLoop]
  | succ n ih =>
    intro p out dd h
    cases p with
    | nil => simp [cleanLoop]
    | cons c rest =>
      have hr : rest.length ≤ n := by simpa using h
      have ht : rest.tail.length ≤ n := by
        have := List.length_tail rest
        omega
      have hd : ((c :: rest).dropWhile (fun x => x != Separator)).length ≤ n ∨
          c = Separator := by
        by_cases hc : c = Separator
        · exact Or.inr hc
        · left
          have : (c :: rest).dropWhile (fun x => x != Separator) =
              rest.dropWhile (fun x => x != Separator) := by
            simp [List.dropWhile_cons, hc]
          rw [this]
          exact le_trans (length_dropWhile_le _ _) hr
      rw [cleanLoop, cleanLoop]
      by_cases h1 : (c == Separator) = true
      · simp only [h1, if_true]
        exact ih _ _ _ hr
      · have hc : c ≠ Separator := by simpa using h1
        have hd2 := hd.resolve_right hc
        simp only [h1, if_false, Bool.false_eq_true]
        split_ifs <;> first | exact ih _ _ _ hr | exact ih _ _ _ ht | exact ih _ _ _ hd2

theorem cleanLoop_fuel (rooted : Bool) (fuel : Nat) (p out : GoString) (dd : Nat)
    (h : p.length ≤ fuel) :
    cleanLoop rooted fuel p out dd = run rooted p out dd := by
  unfold run
  induction fuel with
  | zero =>
    have : p = [] := List.length_eq_zero.mp (Nat.le_zero.mp h)
    subst this
    rfl
  | succ n ih =>
    by_cases hn : p.length ≤ n
    · rw [cleanLoop_succ rooted n p out dd hn]
      exact ih hn
    · have : p.length = n + 1 := by omega
      rw [this]

theorem run_nil (rooted : Bool) (out : GoString) (dd : Nat) :
    run rooted [] out dd = (out, dd) := rfl

theorem run_cons (rooted : Bool) (c : Char) (rest out : GoString) (dd : Nat) :
    run rooted (c :: rest) out dd =
      if c == Separator then run rooted rest out dd
      else if c == '.' && atEnd rest then run rooted rest out dd
      else if c == '.' && (rest.head? == some '.' && atEnd rest.tail) then
        if dd < out.length then
          run rooted rest.tail (out.take (backtrackLoop out dd (out.length - 1))) dd
        else if !rooted then
          run rooted rest.tail ((if 0 < out.length then out ++ [Separator] else out) ++ ['.', '.'])
            ((if 0 < out.length then out ++ [Separator] else out) ++ ['.', '.']).length
        else run rooted rest.tail out dd
      else
        run rooted ((c :: rest).dropWhile (fun x => x != Separator))
          ((if (rooted && out.length != 1) || (!rooted && out.length != 0) then
              out ++ [Separator] else out) ++
            (c :: rest).takeWhile (fun x => x != Separator)) dd := by
  have hr : rest.length ≤ rest.length := le_refl _
  have ht : rest.tail.length ≤ rest.length := by
    have := List.length_tail rest
    omega
  conv_lhs => rw [run, List.length_cons, cleanLoop]
  by_cases h1 : (c == Separator) = true
  · simp only [h1, if_true]
    exact cleanLoop_fuel _ _ _ _ _ hr
  · have hc : c ≠ Separator := by simpa using h1
    have hd2 : ((c :: rest).dropWhile (fun x => x != Separator)).length ≤ rest.length := by
      have : (c :: rest).dropWhile (fun x => x != Separator) =
          rest.dropWhile (fun x => x != Separator) := by
        simp [List.dropWhile_cons, hc]
      rw [this]
      exact length_dropWhile_le _ _
    simp only [h1, if_false, Bool.false_eq_true]
    split_ifs <;>
      first
      | exact cleanLoop_fuel _ _ _ _ _ hr
      | exact cleanLoop_fuel _ _ _ _ _ ht
      | exact cleanLoop_fuel _ _ _ _ _ hd2

theorem run_sep (rooted : Bool) (rest out : GoString) (dd : Nat) :
    run rooted ('/' :: rest) out dd = run rooted rest out dd := by
  rw [run_cons]
  simp [Separator]

theorem atEnd_append (l q : GoString) : atEnd (l ++ '/' :: q) = true ∨ l ≠ [] := by
  cases l with
  | nil => left; rfl
  | cons a l => right; simp

theorem atEnd_append_eq (l q : GoString) : atEnd (l ++ '/' :: q) = atEnd l := by
  cases l with
  | nil => rfl
  | cons a l => rfl

theorem dotdot_test_append (l q : GoString) :
    ((l ++ '/' :: q).head? == some '.' && atEnd (l ++ '/' :: q).tail) =
      (l.head? == some '.' && atEnd l.tail) := by
  cases l with
  | nil => rfl
  | cons a l =>
    simp only [List.cons_append, List.head?_cons, List.tail_cons]
    rw [atEnd_append_eq]

theorem takeWhile_append_sep (l q : GoString) :
    (l ++ '/' :: q).takeWhile (fun x => x != Separator) =
      l.takeWhile (fun x => x != Separator) := by
  induction l with
  | nil => simp [Separator]
  | cons a l ih =>
    simp only [List.cons_append, List.takeWhile_cons]
    split
    · rw [ih]
    · rfl

theorem dropWhile_append_sep (l q : GoString) :
    (l ++ '/' :: q).dropWhile (fun x => x != Separator) =
      l.dropWhile (fun x => x != Separator) ++ '/' :: q := by
  induction l with
  | nil => simp [Separator]
  | cons a l ih =>
    simp only [List.cons_append, List.dropWhile_cons]
    split
    · rw [ih]
    · rfl

/-- Reading `p`, a separator and then `q` is reading `p` and then `q`: the end
of the input and a separator end an element alike. -/
theorem run_append_sep (rooted : Bool) (q : GoString) :
    ∀ (n : Nat) (p out : GoString) (dd : Nat), p.length ≤ n →
      run rooted (p ++ '/' :: q) out dd =
        run rooted q (run rooted p out dd).1 (run rooted p out dd).2 := by
  intro n
  induction n with
  | zero =>
    intro p out dd h
    have : p = [] := List.length_eq_zero.mp (Nat.le_zero.mp h)
    subst this
    rw [List.nil_append, run_sep, run_nil]
  | succ n ih =>
    intro p out dd h
    cases p with
    | nil => rw [List.nil_append, run_sep, run_nil]
    | cons c rest =>
      have hr : rest.length ≤ n := by simpa using h
      have ht : rest.tail.length ≤ n := by
        have := List.length_tail rest
        omega
      have htail : (rest ++ '/' :: q).tail = rest.tail ++ '/' :: q ∨ rest = [] := by
        cases rest with
        | nil => right; rfl
        | cons a l => left; rfl
      rw [List.cons_append, run_cons, run_cons rooted c rest]
      rw [atEnd_append_eq, dotdot_test_append]
      by_cases h1 : (c == Separator) = true
      · simp only [h1, if_true]
        exact ih _ _ _ hr
      · have hc : c ≠ Separator := by simpa using h1
        simp only [h1, if_false, Bool.false_eq_true]
        by_cases h2 : (c == '.' && atEnd rest) = true
        · simp only [h2, if_true]
          exact ih _ _ _ hr
        · simp only [h2, if_false, Bool.false_eq_true]
          by_cases h3 : (c == '.' && (rest.head? == some '.' && atEnd rest.tail)) = true
          · simp only [h3, if_true]
            have hne : rest ≠ [] := by
              intro h
              subst h
              simp at h3
            have htl := htail.resolve_right hne
            rw [htl]
            split_ifs <;> exact ih _ _ _ ht
          · simp only [h3, if_false, Bool.false_eq_true]
            have e1 : (c :: (rest ++ '/' :: q)) = (c :: rest) ++ '/' :: q := rfl
            rw [e1, takeWhile_append_sep, dropWhile_append_sep]
            apply ih
            have : (c :: rest).dropWhile (fun x => x != Separator) =
                rest.dropWhile (fun x => x != Separator) := by
              simp [List.dropWhile_cons, hc]
            rw [this]
            exact le_trans (length_dropWhile_le _ _) hr

theorem length_withSlash_ge (rooted : Bool) (b : GoString) :
    b.length ≤ (withSlash rooted b).length := by
  unfold withSlash
  split <;> simp

theorem withSlash_cases (rooted : Bool) (b : GoString) :
    (withSlash rooted b = b ++ [Separator] ∧
        ((rooted = true ∧ b.length ≠ 1) ∨ (rooted = false ∧ b.length ≠ 0))) ∨
      (withSlash rooted b = b ∧
        ((rooted = true ∧ b.length = 1) ∨ (rooted = false ∧ b.length = 0))) := by
  unfold withSlash
  cases rooted <;> by_cases h0 : b.length = 0 <;> by_cases h1 : b.length = 1 <;>
    simp [h0, h1]

theorem Cleaned.dotdot_le {rooted : Bool} {b : GoString} {d : Nat} (h : Cleaned rooted b d) :
    d ≤ b.length := by
  induction h with
  | init => cases rooted <;> simp
  | dots _ _ _ _ => exact le_refl _
  | @elem b e d _ _ ih =>
    rw [List.length_append]
    have := length_withSlash_ge rooted b
    omega

theorem Cleaned.rooted_head {b : GoString} {d : Nat} (h : Cleaned true b d) :
    d = 1 ∧ b.head? = some Separator := by
  induction h with
  | init => simp
  | dots _ hf _ _ => simp at hf
  | @elem b e d _ _ ih =>
    obtain ⟨h1, h2⟩ := ih
    refine ⟨h1, ?_⟩
    cases b with
    | nil => simp at h2
    | cons a l =>
      simp only [List.head?_cons, Option.some.injEq] at h2
      subst h2
      unfold withSlash
      split <;> simp

theorem Cleaned.unrooted_head {b : GoString} {d : Nat} (h : Cleaned false b d) :
    b.head? ≠ some Separator := by
  induction h with
  | init => simp
  | @dots b d _ _ _ ih =>
    cases b with
    | nil => simp [withDotDot, Separator]
    | cons a l => simpa [withDotDot] using ih
  | @elem b e d _ he ih =>
    cases b with
    | nil =>
      obtain ⟨hne, hsep, _, _⟩ := he
      cases e with
      | nil => exact absurd rfl hne
      | cons c e =>
        simp only [withSlash, Bool.false_and, Bool.not_false, List.length_nil, bne_self_eq_false,
          Bool.and_false, Bool.or_self, Bool.false_eq_true, if_false, List.nil_append,
          List.head?_cons, ne_eq, Option.some.injEq]
        intro hc
        subst hc
        exact hsep (List.mem_cons_self _ _)
    | cons a l =>
      simp only [List.head?_cons] at ih
      unfold withSlash
      split <;> simpa using ih

theorem backtrackLoop_stop (out : GoString) (dd t : Nat) (hd : dd ≤ t)
    (hstop : dd = t ∨ out.get? t = some Separator) :
    ∀ k, (∀ i, t < i → i ≤ t + k → out.get? i ≠ some Separator) →
      backtrackLoop out dd (t + k) = t := by
  intro k
  induction k with
  | zero =>
    intro _
    cases t with
    | zero => rfl
    | succ t =>
      rw [Nat.add_zero, backtrackLoop, if_neg]
      rintro ⟨h1, h2⟩
      rcases hstop with h | h
      · omega
      · exact h2 h
  | succ k ih =>
    intro h
    have e : t + (k + 1) = (t + k) + 1 := by omega
    rw [e, backtrackLoop, if_pos]
    · exact ih (fun i h1 h2 => h i h1 (by omega))
    · exact ⟨by omega, h _ (by omega) (by omega)⟩

theorem backtrack_elem (rooted : Bool) (b e : GoString) (d : Nat)
    (hb : Cleaned rooted b d) (he : IsElem e) :
    (withSlash rooted b ++ e).take
      (backtrackLoop (withSlash rooted b ++ e) d ((withSlash rooted b ++ e).length - 1)) = b := by
  obtain ⟨hne, hsep, _, _⟩ := he
  have hd := hb.dotdot_le
  have hlen : 0 < e.length := List.length_pos.mpr hne
  have hws := length_withSlash_ge rooted b
  have hpre : ∃ s, withSlash rooted b = b ++ s := by
    rcases withSlash_cases rooted b with ⟨h, _⟩ | ⟨h, _⟩
    · exact ⟨_, h⟩
    · exact ⟨[], by simpa using h⟩
  have hstop : d = b.length ∨ (withSlash rooted b ++ e).get? b.length = some Separator := by
    rcases withSlash_cases rooted b with ⟨h, _⟩ | ⟨h, h2⟩
    · right
      rw [h, List.append_assoc, List.get?_eq_getElem?,
        List.getElem?_append_right (le_refl _)]
      simp
    · left
      rcases h2 with ⟨hr, h1⟩ | ⟨hr, h0⟩
      · subst hr
        rw [hb.rooted_head.1, h1]
      · omega
  have hk : (withSlash rooted b ++ e).length - 1 =
      b.length + ((withSlash rooted b ++ e).length - 1 - b.length) := by
    rw [List.length_append]
    omega
  have hbt := backtrackLoop_stop (withSlash rooted b ++ e) d b.length hd hstop
    ((withSlash rooted b ++ e).length - 1 - b.length) (by
      intro i h1 h2 hget
      have hwsle : (withSlash rooted b).length ≤ i := by
        rcases withSlash_cases rooted b with ⟨h, _⟩ | ⟨h, _⟩
        · rw [h]; simp only [List.length_append, List.length_singleton]; omega
        · rw [h]; omega
      rw [List.get?_eq_getElem?, List.getElem?_append_right hwsle] at hget
      exact hsep (List.getElem?_mem hget))
  rw [hk, hbt]
  obtain ⟨s, hs⟩ := hpre
  rw [hs, List.append_assoc, List.take_left]

theorem atEnd_of_takeWhile_nil (l : GoString)
    (h : l.takeWhile (fun x => x != Separator) = []) : atEnd l = true := by
  cases l with
  | nil => rfl
  | cons a l =>
    rw [List.takeWhile_cons] at h
    split at h
    · simp at h
    · rename_i ha
      simpa [atEnd] using ha

theorem sep_not_mem_takeWhile (l : GoString) :
    Separator ∉ l.takeWhile (fun x => x != Separator) := by
  intro h
  have := List.mem_takeWhile_imp h
  simp at this

theorem isElem_takeWhile (c : Char) (rest : GoString) (h1 : c ≠ Separator)
    (h2 : ¬ (c == '.' && atEnd rest) = true)
    (h3 : ¬ (c == '.' && (rest.head? == some '.' && atEnd rest.tail)) = true) :
    IsElem ((c :: rest).takeWhile (fun x => x != Separator)) := by
  have htw : (c :: rest).takeWhile (fun x => x != Separator) =
      c :: rest.takeWhile (fun x => x != Separator) := by
    simp [List.takeWhile_cons, h1]
  refine ⟨?_, sep_not_mem_takeWhile _, ?_, ?_⟩
  · rw [htw]
    simp
  · rw [htw]
    intro h
    simp only [List.cons.injEq] at h
    obtain ⟨hc, ht⟩ := h
    apply h2
    simp [hc, atEnd_of_takeWhile_nil rest ht]
  · rw [htw]
    intro h
    simp only [List.cons.injEq] at h
    obtain ⟨hc, ht⟩ := h
    apply h3
    cases rest with
    | nil => simp at ht
    | cons a l =>
      rw [List.takeWhile_cons] at ht
      split at ht
      · simp only [List.cons.injEq] at ht
        obtain ⟨ha, hl⟩ := ht
        simp [hc, ha, atEnd_of_takeWhile_nil l hl]
      · simp at ht

theorem Cleaned.backtrack {rooted : Bool} {out : GoString} {dd : Nat}
    (h : Cleaned rooted out dd) (hlt : dd < out.length) :
    Cleaned rooted (out.take (backtrackLoop out dd (out.length - 1))) dd := by
  cases h with
  | init => cases rooted <;> simp at hlt
  | dots _ _ _ => omega
  | elem hb he =>
    rw [backtrack_elem rooted _ _ dd hb he]
    exact hb

/-- The loop of Clean keeps its state among the cleaned ones. -/
theorem run_cleaned (rooted : Bool) :
    ∀ (n : Nat) (p out : GoString) (dd : Nat), p.length ≤ n → Cleaned rooted out dd →
      Cleaned rooted (run rooted p out dd).1 (run rooted p out dd).2 := by
  intro n
  induction n with
  | zero =>
    intro p out dd h hc
    have : p = [] := List.length_eq_zero.mp (Nat.le_zero.mp h)
    subst this
    exact hc
  | succ n ih =>
    intro p out dd h hc
    cases p with
    | nil => exact hc
    | cons c rest =>
      have hr : rest.length ≤ n := by simpa using h
      have ht : rest.tail.length ≤ n := by
        have := List.length_tail rest
        omega
      rw [run_cons]
      by_cases h1 : (c == Separator) = true
      · simp only [h1, if_true]
        exact ih _ _ _ hr hc
      · have hcs : c ≠ Separator := by simpa using h1
        simp only [h1, if_false, Bool.false_eq_true]
        by_cases h2 : (c == '.' && atEnd rest) = true
        · simp only [h2, if_true]
          exact ih _ _ _ hr hc
        · simp only [h2, if_false, Bool.false_eq_true]
          by_cases h3 : (c == '.' && (rest.head? == some '.' && atEnd rest.tail)) = true
          · simp only [h3, if_true]
            by_cases h4 : dd < out.length
            · simp only [h4, if_true]
              exact ih _ _ _ ht (hc.backtrack h4)
            · simp only [h4, if_false]
              cases rooted with
              | true =>
                simp only [Bool.not_true, Bool.false_eq_true, if_false]
                exact ih _ _ _ ht hc
              | false =>
                simp only [Bool.not_false, if_true]
                have hd : dd = out.length := by
                  have := hc.dotdot_le
                  omega
                exact ih _ _ _ ht (Cleaned.dots hc rfl hd)
          · simp only [h3, if_false, Bool.false_eq_true]
            apply ih
            · have : (c :: rest).dropWhile (fun x => x != Separator) =
                  rest.dropWhile (fun x => x != Separator) := by
                simp [List.dropWhile_cons, hcs]
              rw [this]
              exact le_trans (length_dropWhile_le _ _) hr
            · exact Cleaned.elem hc (isElem_takeWhile c rest hcs h2 h3)

theorem run_elem (rooted : Bool) (e out : GoString) (d : Nat) (he : IsElem e) :
    run rooted e out d = (withSlash rooted out ++ e, d) := by
  obtain ⟨hne, hsep, hdot, hdots⟩ := he
  cases e with
  | nil => exact absurd rfl hne
  | cons c rest =>
    have hcs : c ≠ Separator := fun h => hsep (h ▸ List.mem_cons_self _ _)
    have hrest : ∀ x ∈ rest, x ≠ Separator := fun x hx h =>
      hsep (h ▸ List.mem_cons_of_mem _ hx)
    have hat : atEnd rest = true → rest = [] := by
      intro h
      cases rest with
      | nil => rfl
      | cons a l =>
        have : a = Separator := by simpa [atEnd] using h
        exact absurd this (hrest a (List.mem_cons_self _ _))
    have h1 : ¬ (c == Separator) = true := by simpa using hcs
    have h2 : ¬ (c == '.' && atEnd rest) = true := by
      intro h
      simp only [Bool.and_eq_true, beq_iff_eq] at h
      have := hat h.2
      exact hdot (by rw [h.1, this])
    have h3 : ¬ (c == '.' && (rest.head? == some '.' && atEnd rest.tail)) = true := by
      intro h
      simp only [Bool.and_eq_true, beq_iff_eq] at h
      obtain ⟨hc, hh, ha⟩ := h
      cases rest with
      | nil => simp at hh
      | cons a l =>
        simp only [List.head?_cons, Option.some.injEq] at hh
        simp only [List.tail_cons] at ha
        cases l with
        | nil => exact hdots (by rw [hc, hh])
        | cons a2 l2 =>
          have : a2 = Separator := by simpa [atEnd] using ha
          exact absurd this (hrest a2 (by simp))
    have htw : (c :: rest).takeWhile (fun x => x != Separator) = c :: rest := by
      rw [List.takeWhile_eq_self_iff]
      intro x hx
      have : x ≠ Separator := fun h => hsep (h ▸ hx)
      simpa using this
    have hdw : (c :: rest).dropWhile (fun x => x != Separator) = [] := by
      rw [List.dropWhile_eq_nil_iff]
      intro x hx
      have : x ≠ Separator := fun h => hsep (h ▸ hx)
      simpa using this
    rw [run_cons]
    simp only [h1, h2, h3, if_false, Bool.false_eq_true]
    rw [htw, hdw, run_nil]
    rfl

theorem run_dotdot_unrooted (out : GoString) (d : Nat) (h : d = out.length) :
    run false ['.', '.'] out d = (withDotDot out, (withDotDot out).length) := by
  rw [run_cons]
  subst h
  simp [Separator, atEnd, run_nil, withDotDot]

/-- Cleaning a cleaned buffer gives the buffer back, with the same `dotdot`. -/
theorem run_fixed {rooted : Bool} {b : GoString} {d : Nat} (h : Cleaned rooted b d) :
    run rooted (if rooted then b.drop 1 else b) (if rooted then [Separator] else [])
      (if rooted then 1 else 0) = (b, d) := by
  induction h with
  | init => cases rooted <;> rfl
  | @dots b d hb hf hd ih =>
    subst hf
    simp only [Bool.false_eq_true, if_false] at ih ⊢
    cases b with
    | nil =>
      rw [run_nil] at ih
      exact run_dotdot_unrooted [] 0 rfl
    | cons a l =>
      have e : withDotDot (a :: l) = (a :: l) ++ '/' :: ['.', '.'] := by
        simp [withDotDot, Separator]
      rw [e, run_append_sep false _ _ _ _ _ (le_refl _), ih, ← e]
      exact run_dotdot_unrooted _ _ hd
  | @elem b e d hb he ih =>
    rcases withSlash_cases rooted b with ⟨hs, _⟩ | ⟨hs, h2⟩
    · have hbody : (if rooted = true then (withSlash rooted b ++ e).drop 1
          else withSlash rooted b ++ e) =
          (if rooted = true then b.drop 1 else b) ++ '/' :: e := by
        rw [hs]
        cases rooted with
        | false => simp [Separator]
        | true =>
          have := hb.rooted_head.2
          cases b with
          | nil => simp at this
          | cons a l => simp [Separator]
      rw [hbody, run_append_sep rooted _ _ _ _ _ (le_refl _), ih]
      exact run_elem rooted e b d he
    · rcases h2 with ⟨hr, h1⟩ | ⟨hr, h0⟩
      · subst hr
        have hh := hb.rooted_head.2
        have hbv : b = [Separator] := by
          cases b with
          | nil => simp at h1
          | cons a l =>
            simp only [List.head?_cons, Option.some.injEq] at hh
            simp only [List.length_cons, add_left_eq_self, List.length_eq_zero] at h1
            rw [hh, h1]
        have hd1 := hb.rooted_head.1
        subst hbv
        subst hd1
        simp only [if_true]
        have : ([Separator] ++ e).drop 1 = e := rfl
        rw [hs, this]
        have := run_elem true e [Separator] 1 he
        rw [hs] at this
        exact this
      · subst hr
        have hbv : b = [] := List.length_eq_zero.mp h0
        subst hbv
        have hd0 : d = 0 := by
          have := hb.dotdot_le
          simpa using this
        subst hd0
        simp only [Bool.false_eq_true, if_false]
        exact run_elem false e [] 0 he

/-- Clean in terms of the loop. -/
theorem Clean_eq (path : GoString) (h : path ≠ []) :
    Clean path =
      if (run (path.head? == some Separator)
            (if (path.head? == some Separator) = true then path.drop 1 else path)
            (if (path.head? == some Separator) = true then [Separator] else [])
            (if (path.head? == some Separator) = true then 1 else 0)).1.length = 0
      then ['.']
      else (run (path.head? == some Separator)
            (if (path.head? == some Separator) = true then path.drop 1 else path)
            (if (path.head? == some Separator) = true then [Separator] else [])
            (if (path.head? == some Separator) = true then 1 else 0)).1 := by
  have hd : (path.drop 1).length ≤ path.length := by simp
  unfold Clean
  rw [if_neg h]
  cases hr : (path.head? == some Separator) with
  | true =>
    simp only [if_true]
    rw [cleanLoop_fuel true _ _ _ _ hd]
  | false =>
    simp only [Bool.false_eq_true, if_false]
    rw [cleanLoop_fuel false _ _ _ _ (le_refl _)]

/-- Joining onto a cleaned path that ends in a real element is joining onto the
path itself. -/
theorem clean_clean_append (v e q : GoString) (hv : v ≠ []) (he : IsElem e) :
    Clean (Clean (v ++ '/' :: e) ++ '/' :: q) = Clean ((v ++ '/' :: e) ++ '/' :: q) := by
  generalize hr : (v.head? == some Separator) = r
  have hne1 : v ++ '/' :: e ≠ [] := by simp
  have hhead1 : ((v ++ '/' :: e).head? == some Separator) = r := by
    cases v with
    | nil => exact absurd rfl hv
    | cons a l => simpa using hr
  have hbody1 : (if r = true then (v ++ '/' :: e).drop 1 else v ++ '/' :: e) =
      (if r = true then v.drop 1 else v) ++ '/' :: e := by
    cases v with
    | nil => exact absurd rfl hv
    | cons a l => cases r <;> simp
  -- the state after reading `v`, and after reading `e` as well
  generalize hsv :
    run r (if r = true then v.drop 1 else v) (if r = true then [Separator] else [])
      (if r = true then 1 else 0) = sv
  have hcv : Cleaned r sv.1 sv.2 := by
    rw [← hsv]
    exact run_cleaned r _ _ _ _ (le_refl _) Cleaned.init
  have hce : Cleaned r (withSlash r sv.1 ++ e) sv.2 := Cleaned.elem hcv he
  have hrun1 : run r (if r = true then (v ++ '/' :: e).drop 1 else v ++ '/' :: e)
      (if r = true then [Separator] else []) (if r = true then 1 else 0) =
      (withSlash r sv.1 ++ e, sv.2) := by
    rw [hbody1, run_append_sep r _ _ _ _ _ (le_refl _), hsv]
    exact run_elem r e _ _ he
  have hbne : withSlash r sv.1 ++ e ≠ [] := by
    intro h
    exact he.1 (List.append_eq_nil.mp h).2
  have hlen : ¬ (withSlash r sv.1 ++ e).length = 0 := by
    intro h
    exact hbne (List.length_eq_zero.mp h)
  have hclean1 : Clean (v ++ '/' :: e) = withSlash r sv.1 ++ e := by
    rw [Clean_eq _ hne1, hhead1, hrun1]
    simp only [hlen, if_false]
  rw [hclean1]
  generalize hb : withSlash r sv.1 ++ e = b at hce hbne hrun1
  have hhead2 : (b.head? == some Separator) = r := by
    cases r with
    | true => simp [hce.rooted_head.2]
    | false =>
      have := hce.unrooted_head
      simpa using this
  have hshape : ∀ (w : GoString), w ≠ [] → (w.head? == some Separator) = r →
      Clean (w ++ '/' :: q) =
        if (run r q
            (run r (if r = true then w.drop 1 else w) (if r = true then [Separator] else [])
              (if r = true then 1 else 0)).1
            (run r (if r = true then w.drop 1 else w) (if r = true then [Separator] else [])
              (if r = true then 1 else 0)).2).1.length = 0
        then ['.']
        else (run r q
            (run r (if r = true then w.drop 1 else w) (if r = true then [Separator] else [])
              (if r = true then 1 else 0)).1
            (run r (if r = true then w.drop 1 else w) (if r = true then [Separator] else [])
              (if r = true then 1 else 0)).2).1 := by
    intro w hw hwr
    have hne : w ++ '/' :: q ≠ [] := by simp
    have hh : ((w ++ '/' :: q).head? == some Separator) = r := by
      cases w with
      | nil => exact absurd rfl hw
      | cons a l => simpa using hwr
    have hbody : (if r = true then (w ++ '/' :: q).drop 1 else w ++ '/' :: q) =
        (if r = true then w.drop 1 else w) ++ '/' :: q := by
      cases w with
      | nil => exact absurd rfl hw
      | cons a l => cases r <;> simp
    rw [Clean_eq _ hne, hh, hbody, run_append_sep r _ _ _ _ _ (le_refl _)]
  rw [hshape b hbne hhead2, hshape (v ++ '/' :: e) hne1 hhead1, hrun1, run_fixed hce]

theorem dot_or_self_ne_nil (l : GoString) : (if l.length = 0 then ['.'] else l) ≠ [] := by
  split
  · simp
  · rename_i h1
    intro h2
    exact h1 (by rw [h2]; rfl)

theorem Clean_ne_nil (path : GoString) : Clean path ≠ [] := by
  by_cases h : path = []
  · simp [Clean, h]
  · rw [Clean_eq path h]
    exact dot_or_self_ne_nil _

theorem Join_pair (a b : GoString) (ha : a ≠ []) : Join [a, b] = Clean (a ++ '/' :: b) := by
  simp [Join, ha, List.intercalate, Separator]

/-! ## Facts about the redirect target -/

theorem Cleaned.rooted_second {b : GoString} {d : Nat} (h : Cleaned true b d) :
    (b.drop 1).head? ≠ some Separator := by
  induction h with
  | init => simp
  | dots _ hf _ _ => simp at hf
  | @elem b e d hb he ih =>
    have hh := hb.rooted_head.2
    cases b with
    | nil => simp at hh
    | cons a l =>
      cases l with
      | nil =>
        obtain ⟨hne, hsep, _, _⟩ := he
        cases e with
        | nil => exact absurd rfl hne
        | cons c e =>
          have hc : c ≠ Separator := fun h => hsep (h ▸ List.mem_cons_self _ _)
          simpa [withSlash] using hc
      | cons a2 l2 =>
        have : (withSlash true (a :: a2 :: l2) ++ e).drop 1 = a2 :: (l2 ++ [Separator] ++ e) := by
          simp [withSlash]
        rw [this]
        simpa using ih

theorem clean_rooted_second (P : GoString) (hhead : P.head? = some '/') (hclean : Clean P = P) :
    (P.drop 1).head? ≠ some '/' := by
  have hne : P ≠ [] := by
    intro h
    subst h
    simp at hhead
  have hr : (P.head? == some Separator) = true := by
    rw [hhead]
    rfl
  have hc := Clean_eq P hne
  rw [hr] at hc
  simp only [if_true] at hc
  have hcl : Cleaned true (run true (P.drop 1) [Separator] 1).1 (run true (P.drop 1) [Separator] 1).2 :=
    run_cleaned true _ _ _ _ (le_refl _) (Cleaned.init : Cleaned true _ _)
  have hlen : ¬ (run true (P.drop 1) [Separator] 1).1.length = 0 := by
    intro h0
    have := hcl.rooted_head.2
    rw [List.length_eq_zero.mp h0] at this
    simp at this
  rw [if_neg hlen, hclean] at hc
  have := hcl.rooted_second
  rw [← hc] at this
  exact this

theorem clean_append_slash (P : GoString) (hne : P ≠ []) : Clean (P ++ ['/']) = Clean P := by
  have hne2 : P ++ ['/'] ≠ [] := by simp
  have hh : ((P ++ ['/']).head? == some Separator) = (P.head? == some Separator) := by
    cases P with
    | nil => exact absurd rfl hne
    | cons a l => rfl
  have hbody : ∀ r : Bool, (if r = true then (P ++ ['/']).drop 1 else P ++ ['/']) =
      (if r = true then P.drop 1 else P) ++ '/' :: [] := by
    intro r
    cases P with
    | nil => exact absurd rfl hne
    | cons a l => cases r <;> simp
  rw [Clean_eq _ hne2, Clean_eq _ hne, hh, hbody,
    run_append_sep _ _ _ _ _ _ (le_refl _), run_nil]

theorem hasSuffix_slash_false (P : GoString) (h : P.getLast? ≠ some '/') :
    HasSuffix P ['/'] = false := by
  cases hh : HasSuffix P ['/'] with
  | false => rfl
  | true =>
    obtain ⟨t, ht⟩ := (hasSuffix_iff _ _).mp hh
    exact absurd (by rw [← ht]; simp) h

/-- The Location of the redirect FileServer sets up, for a cleaned prefix of
plain characters. -/
theorem redirectLocation_prefix (P : GoString) (hhead : P.head? = some '/')
    (hslash : P.getLast? ≠ some '/') (hplain : P.all plainChar = true) (hclean : Clean P = P) :
    redirectLocation (P ++ ['/']) = some (P ++ ['/']) := by
  have hne : P ≠ [] := by
    intro h
    subst h
    simp at hhead
  have hP1 : P ≠ ['/'] := by
    intro h
    subst h
    exact hslash rfl
  have h1 : (P ++ ['/']).head? = some '/' := head?_append_of_head? _ _ _ hhead
  have h2 : ((P ++ ['/']).drop 1).head? ≠ some '/' := by
    have := clean_rooted_second P hhead hclean
    cases P with
    | nil => exact absurd rfl hne
    | cons a l =>
      cases l with
      | nil =>
        simp only [List.head?_cons, Option.some.injEq] at hhead
        subst hhead
        exact absurd rfl hP1
      | cons a2 l2 => simpa using this
  have h3 : (P ++ ['/']).all plainChar = true := by
    rw [List.all_append, hplain]
    rfl
  have h4 : HasSuffix (P ++ ['/']) ['/'] = true :=
    (hasSuffix_iff _ _).mpr (List.suffix_append _ _)
  unfold redirectLocation
  rw [if_pos ⟨h1, h2, h3⟩]
  simp only [h4, clean_append_slash P hne, hclean, hasSuffix_slash_false P hslash,
    Bool.not_false, Bool.and_self, if_true]

/-! ## Facts about finding a route -/

theorem serveHTTP_of_find (r : Router) (req : Request) (rt : Route)
    (h : r.findRoute req.method req.routePath = some rt) :
    r.ServeHTTP req = rt.handler.ServeHTTP rt.pattern req := by
  unfold Router.ServeHTTP
  rw [h]

theorem foldl_find_none (method : Method) (path : GoString) (l : List Route)
    (h : ∀ rt ∈ l, matchPattern rt.pattern path = false) :
    l.foldl
      (fun best rt =>
        if rt.method == method && matchPattern rt.pattern path then
          match best with
          | some b => if keeps b rt then some b else some rt
          | none => some rt
        else best)
      none = none := by
  induction l with
  | nil => rfl
  | cons a l ih =>
    have ha := h a (List.mem_cons_self _ _)
    rw [List.foldl_cons, ha]
    simp only [Bool.and_false, Bool.false_eq_true, if_false]
    exact ih (fun rt hrt => h rt (List.mem_cons_of_mem _ hrt))

theorem serveHTTP_notFound (r : Router) (req : Request)
    (h : ∀ rt ∈ r.routes, matchPattern rt.pattern req.routePath = false) :
    r.ServeHTTP req = Reply.notFound := by
  have hf : r.findRoute req.method req.routePath = none := foldl_find_none _ _ _ h
  have ha : r.routes.any (fun rt => matchPattern rt.pattern req.routePath) = false := by
    rw [List.any_eq_false]
    intro rt hrt
    simp [h rt hrt]
  unfold Router.ServeHTTP
  rw [hf]
  simp only [ha, Bool.false_eq_true, if_false]

/-- On the two routes FileServer registers for the prefix `P`, a routing path
that continues `P` + "/" finds the wildcard route. -/
theorem find_wild (P root rp : GoString) (hstar : '*' ∉ P) (hrp : (P ++ ['/']) <+: rp) :
    Router.findRoute
      ⟨NewRouter.entries ++ [Entry.route Method.GET P (Handler.redirect (P ++ ['/']) 301),
        Entry.route Method.GET (P ++ ['/', '*']) (Handler.fileServer root)]⟩ Method.GET rp =
      some ⟨Method.GET, P ++ ['/', '*'], Handler.fileServer root⟩ := by
  have h1 : matchPattern P rp = false := by
    rw [matchPattern_static _ _ hstar]
    cases hb : (P == rp) with
    | false => rfl
    | true =>
      have e : P = rp := by simpa using hb
      have := hrp.length_le
      rw [← e] at this
      simp at this
  have h2 : matchPattern (P ++ ['/', '*']) rp = true := by
    have e : P ++ ['/', '*'] = (P ++ ['/']) ++ ['*'] := by simp
    rw [e, matchPattern_wild]
    exact (hasPrefix_iff _ _).mpr hrp
  simp [Router.findRoute, Router.routes, NewRouter, h1, h2]

/-- On the two routes FileServer registers for the prefix `P`, the routing
path `P` finds the redirect route. -/
theorem find_static (P root : GoString) (hstar : '*' ∉ P) :
    Router.findRoute
      ⟨NewRouter.entries ++ [Entry.route Method.GET P (Handler.redirect (P ++ ['/']) 301),
        Entry.route Method.GET (P ++ ['/', '*']) (Handler.fileServer root)]⟩ Method.GET P =
      some ⟨Method.GET, P, Handler.redirect (P ++ ['/']) 301⟩ := by
  have h1 : matchPattern P P = true := by
    rw [matchPattern_static _ _ hstar]
    simp
  have h2 : matchPattern (P ++ ['/', '*']) P = false := by
    have e : P ++ ['/', '*'] = (P ++ ['/']) ++ ['*'] := by simp
    rw [e, matchPattern_wild]
    apply hasPrefix_false
    intro h
    have := h.length_le
    simp at this
  simp [Router.findRoute, Router.routes, NewRouter, h1, h2]

/-! ## The claims that hold as stated -/

/-- The calls main makes on its router, in order. -/
theorem main_eq (wd : GoString) :
    main wd =
      ⟨⟨[Entry.use Middleware.RequestID, Entry.use Middleware.RealIP,
        Entry.use Middleware.Logger, Entry.use Middleware.Recoverer,
        Entry.use (Middleware.Timeout 60000000000),
        Entry.route Method.GET "/_next/static".toList
          (Handler.redirect "/_next/static/".toList 301),
        Entry.route Method.GET "/_next/static/*".toList (Handler.fileServer (staticDir wd)),
        Entry.route Method.GET "/".toList
          (Handler.serveFile (Join [baseDir wd, "index.html".toList])),
        Entry.route Method.GET "/classic-form".toList
          (Handler.serveFile (Join [baseDir wd, "classic-form.html".toList])),
        Entry.route Method.GET "/paper-form".toList
          (Handler.serveFile (Join [baseDir wd, "paper-form.html".toList]))]⟩, none⟩ :=
  rfl

/-- The routes main registers, in order. -/
theorem main_routes (wd : GoString) :
    (main wd).router.routes =
      [⟨Method.GET, "/_next/static".toList, Handler.redirect "/_next/static/".toList 301⟩,
       ⟨Method.GET, "/_next/static/*".toList, Handler.fileServer (staticDir wd)⟩,
       ⟨Method.GET, "/".toList, Handler.serveFile (Join [baseDir wd, "index.html".toList])⟩,
       ⟨Method.GET, "/classic-form".toList,
          Handler.serveFile (Join [baseDir wd, "classic-form.html".toList])⟩,
       ⟨Method.GET, "/paper-form".toList,
          Handler.serveFile (Join [baseDir wd, "paper-form.html".toList])⟩] :=
  rfl

/-- C3: when the path contains one of the characters '{', '}', '*', FileServer
ends in the panic "FileServer does not permit any URL parameters." and leaves
the router exactly as it was: no route has been registered. -/
theorem C3_fileServer_panics (r : Router) (path root : GoString)
    (h : '{' ∈ path ∨ '}' ∈ path ∨ '*' ∈ path) :
    FileServer r path root =
      ⟨r, some (Fault.panic "FileServer does not permit any URL parameters.")⟩ ∧
    (FileServer r path root).router.routes = r.routes := by
  have hc : ContainsAny path reserved = true := by
    cases hh : ContainsAny path reserved with
    | true => rfl
    | false =>
      have := (containsAny_reserved_false path).mp hh
      tauto
  rw [fileServer_reserved r path root hc]
  exact ⟨rfl, rfl⟩

/-- C3 at the path "/files/\x7bname\x7d" on the router with the five middlewares. -/
theorem C3_fileServer_panics_witness :
    FileServer mainMiddlewares "/files/{name}".toList "pub".toList =
      ⟨mainMiddlewares, some (Fault.panic "FileServer does not permit any URL parameters.")⟩ :=
  (C3_fileServer_panics mainMiddlewares "/files/{name}".toList "pub".toList
    (Or.inl (by decide))).1

/-- C4: main ends without a fault and has registered exactly five routes, all
for GET: "/_next/static" as the 301 redirect, "/_next/static/*" as the file
handler of the asset directory, and "/", "/classic-form", "/paper-form" serving
index.html, classic-form.html and paper-form.html of the base directory, which
is the working directory joined with "../ui/dist". -/
theorem C4_main_routes (wd : GoString) :
    (main wd).fault = none ∧
    (main wd).router.routes =
      [⟨Method.GET, "/_next/static".toList, Handler.redirect "/_next/static/".toList 301⟩,
       ⟨Method.GET, "/_next/static/*".toList,
          Handler.fileServer (Join [wd, "../ui/dist/_next/static".toList])⟩,
       ⟨Method.GET, "/".toList,
          Handler.serveFile (Join [Join [wd, "../ui/dist".toList], "index.html".toList])⟩,
       ⟨Method.GET, "/classic-form".toList,
          Handler.serveFile (Join [Join [wd, "../ui/dist".toList], "classic-form.html".toList])⟩,
       ⟨Method.GET, "/paper-form".toList,
          Handler.serveFile (Join [Join [wd, "../ui/dist".toList], "paper-form.html".toList])⟩] ∧
    (main wd).router.routes.length = 5 ∧
    (∀ rt ∈ (main wd).router.routes, rt.method = Method.GET) := by
  refine ⟨rfl, rfl, rfl, ?_⟩
  intro rt hrt
  rw [main_eq] at hrt
  simp [Router.routes] at hrt
  rcases hrt with h | h | h | h | h <;> rw [h]

/-- C7: the middleware chain of the router main builds is RequestID, RealIP,
Logger, Recoverer and Timeout, in this order, the timeout being 60 seconds
(60 000 000 000 nanoseconds); the five are the first five calls on the router,
no route exists when the last of them is installed, and the five calls that
follow register the five routes. -/
theorem C7_main_middlewares (wd : GoString) :
    (main wd).router.middlewares =
      [Middleware.RequestID, Middleware.RealIP, Middleware.Logger, Middleware.Recoverer,
        Middleware.Timeout (60 * Second)] ∧
    60 * Second = 60 * 1000000000 ∧
    (main wd).router.entries.take 5 =
      [Entry.use Middleware.RequestID, Entry.use Middleware.RealIP,
        Entry.use Middleware.Logger, Entry.use Middleware.Recoverer,
        Entry.use (Middleware.Timeout (60 * Second))] ∧
    mainMiddlewares.entries = (main wd).router.entries.take 5 ∧
    mainMiddlewares.routes = [] ∧
    (main wd).router.entries.drop 5 =
      (main wd).router.routes.map (fun rt => Entry.route rt.method rt.pattern rt.handler) ∧
    (main wd).router.routes.length = 5 :=
  ⟨rfl, rfl, rfl, rfl, rfl, rfl, rfl⟩

/-- C8: for every working directory, the asset directory main serves,
Join(wd, "../ui/dist/_next/static"), is Join(base, "_next/static") for the base
directory base = Join(wd, "../ui/dist") onto which the three HTML file names are
joined; the router main builds uses exactly these values, which depend on the
working directory alone. -/
theorem C8_static_dir_under_base (wd : GoString) :
    Join [wd, "../ui/dist/_next/static".toList] =
      Join [Join [wd, "../ui/dist".toList], "_next/static".toList] ∧
    staticDir wd = Join [baseDir wd, "_next/static".toList] ∧
    (main wd).router.routes.map (fun rt => rt.handler) =
      [Handler.redirect "/_next/static/".toList 301,
       Handler.fileServer (Join [baseDir wd, "_next/static".toList]),
       Handler.serveFile (Join [baseDir wd, "index.html".toList]),
       Handler.serveFile (Join [baseDir wd, "classic-form.html".toList]),
       Handler.serveFile (Join [baseDir wd, "paper-form.html".toList])] := by
  have key : Join [wd, "../ui/dist/_next/static".toList] =
      Join [Join [wd, "../ui/dist".toList], "_next/static".toList] := by
    by_cases hwd : wd = []
    · subst hwd
      decide
    · have hv : wd ++ '/' :: "../ui".toList ≠ [] := by simp [hwd]
      have he : IsElem "dist".toList := by
        refine ⟨?_, ?_, ?_, ?_⟩ <;> decide
      have h := clean_clean_append (wd ++ '/' :: "../ui".toList) "dist".toList
        "_next/static".toList hv he
      have e1 : (wd ++ '/' :: "../ui".toList) ++ '/' :: "dist".toList =
          wd ++ '/' :: "../ui/dist".toList := by
        rw [List.append_assoc]
        rfl
      have e2 : (wd ++ '/' :: "../ui/dist".toList) ++ '/' :: "_next/static".toList =
          wd ++ '/' :: "../ui/dist/_next/static".toList := by
        rw [List.append_assoc]
        rfl
      rw [e1, e2] at h
      rw [Join_pair _ _ hwd, Join_pair _ _ hwd, Join_pair _ _ (Clean_ne_nil _), h]
  refine ⟨key, key, ?_⟩
  rw [main_routes]
  simp only [List.map_cons, List.map_nil]
  rw [show staticDir wd = Join [baseDir wd, "_next/static".toList] from key]

/-! ## The claims about FileServer, with the leading slash chi demands -/

/-- C1, as amended: for a prefix P that begins with a slash, has no reserved
character and does not end in a slash, FileServer registers the wildcard route
with pattern P + "/*"; trimming "/*" from that pattern gives back P and
trimming P from the URL path P + "/" + rest leaves "/" + rest; so on a GET
whose URL path is P + "/" + rest and whose raw path is unset or begins with
P + "/", the wildcard handler hands the file server of `root` exactly the path
"/" + rest, and the router routes the request to that handler. -/
theorem C1_fileServer_looks_up_rest (r : Router) (P root rest raw : GoString)
    (hhead : P.head? = some '/') (hres : '{' ∉ P ∧ '}' ∉ P ∧ '*' ∉ P)
    (hslash : P.getLast? ≠ some '/') (hraw : raw = [] ∨ (P ++ ['/']) <+: raw) :
    (FileServer r P root).fault = none ∧
    (FileServer r P root).router.routes.getLast? =
      some ⟨Method.GET, P ++ ['/', '*'], Handler.fileServer root⟩ ∧
    TrimSuffix (P ++ ['/', '*']) ['/', '*'] = P ∧
    TrimPrefix (P ++ '/' :: rest) P = '/' :: rest ∧
    (Handler.fileServer root).ServeHTTP (P ++ ['/', '*']) ⟨Method.GET, P ++ '/' :: rest, raw⟩ =
      Reply.fileServer root ('/' :: rest) ∧
    (FileServer NewRouter P root).router.ServeHTTP ⟨Method.GET, P ++ '/' :: rest, raw⟩ =
      Reply.fileServer root ('/' :: rest) := by
  have hc := (containsAny_reserved_false P).mpr hres
  have hne : P ≠ [] := by
    intro h
    subst h
    simp at hhead
  have hraw2 : raw = [] ∨ P <+: raw := by
    rcases hraw with h | h
    · exact Or.inl h
    · exact Or.inr ((List.prefix_append P ['/']).trans h)
  have hreply := fileServer_handler_reply root P rest raw Method.GET hne hraw2
  refine ⟨?_, ?_, trimSuffix_append _ _, trimPrefix_append _ _, hreply, ?_⟩
  · rw [fileServer_no_slash r P root hhead hc hslash]
  · rw [fileServer_no_slash r P root hhead hc hslash]
    simp [Router.routes, List.filterMap_append]
  · rw [fileServer_no_slash NewRouter P root hhead hc hslash]
    have hrp : (P ++ ['/']) <+: (⟨Method.GET, P ++ '/' :: rest, raw⟩ : Request).routePath := by
      unfold Request.routePath
      rcases hraw with h | h
      · subst h
        simp
      · have hr : raw ≠ [] := by
          intro e
          subst e
          simp at h
        simpa [hr] using h
    rw [serveHTTP_of_find _ _ _ (find_wild P root _ hres.2.2 hrp)]
    exact hreply

/-- C1 as amended, at the prefix "/_next/static" and the rest "css/a.css". -/
theorem C1_fileServer_looks_up_rest_witness :
    (FileServer NewRouter "/_next/static".toList "dist".toList).router.ServeHTTP
        ⟨Method.GET, "/_next/static".toList ++ '/' :: "css/a.css".toList, []⟩ =
      Reply.fileServer "dist".toList ('/' :: "css/a.css".toList) :=
  (C1_fileServer_looks_up_rest NewRouter "/_next/static".toList "dist".toList "css/a.css".toList
    [] (by decide) (by decide) (by decide) (Or.inl rfl)).2.2.2.2.2

/-- C1 as stated fails at the prefix "static": it is non-empty, has no
reserved character and does not end in a slash, yet FileServer ends in the
panic of chi for the pattern "static" and registers no route.  It also fails
for the request whose path is "/_next/static/x.txt" and whose raw path is
"/%5Fnext/static/x.txt": chi routes on the raw path and finds no route. -/
theorem C1_counterexample :
    ("static".toList ≠ [] ∧ ContainsAny "static".toList reserved = false ∧
      "static".toList.getLast? ≠ some '/') ∧
    (FileServer NewRouter "static".toList "dist".toList).fault =
      some (Fault.routingPattern "static".toList) ∧
    (FileServer NewRouter "static".toList "dist".toList).router.routes = [] ∧
    (⟨Method.GET, "/_next/static/x.txt".toList, "/%5Fnext/static/x.txt".toList⟩ :
      Request).wellFormed = true ∧
    (FileServer NewRouter "/_next/static".toList "dist".toList).router.ServeHTTP
      ⟨Method.GET, "/_next/static/x.txt".toList, "/%5Fnext/static/x.txt".toList⟩ =
      Reply.notFound := by
  decide

/-- C2, as amended: for a prefix P that begins with a slash, differs from "/",
has no reserved character and does not end in a slash, FileServer registers a
GET route for exactly P whose handler is the redirect to P + "/" with status
301, and every GET that is routed on the path P is answered by that redirect;
the Location header is P + "/" when P is a cleaned path of plain characters.
The router main builds answers GET /_next/static with status 301 and the
Location /_next/static/. -/
theorem C2_fileServer_redirect (r : Router) (P root : GoString)
    (hhead : P.head? = some '/') (_hroot : P ≠ ['/']) (hres : '{' ∉ P ∧ '}' ∉ P ∧ '*' ∉ P)
    (hslash : P.getLast? ≠ some '/') :
    (FileServer r P root).fault = none ∧
    (FileServer r P root).router.routes =
      r.routes ++ [⟨Method.GET, P, Handler.redirect (P ++ ['/']) 301⟩,
        ⟨Method.GET, P ++ ['/', '*'], Handler.fileServer root⟩] ∧
    (∀ req : Request, req.method = Method.GET → req.routePath = P →
      (FileServer NewRouter P root).router.ServeHTTP req = Reply.redirect (P ++ ['/']) 301) ∧
    (P.all plainChar = true → Clean P = P → ∀ fs,
      (FileServer NewRouter P root).router.respond fs ⟨Method.GET, P, []⟩ =
        some (Response.redirect 301 (P ++ ['/']))) ∧
    (∀ wd fs, (main wd).router.respond fs ⟨Method.GET, "/_next/static".toList, []⟩ =
      some (Response.redirect 301 "/_next/static/".toList)) := by
  have hc := (containsAny_reserved_false P).mpr hres
  have hne : P ≠ [] := by
    intro h
    subst h
    simp at hhead
  have hserve : ∀ req : Request, req.method = Method.GET → req.routePath = P →
      (FileServer NewRouter P root).router.ServeHTTP req = Reply.redirect (P ++ ['/']) 301 := by
    intro req hm hp
    rw [fileServer_no_slash NewRouter P root hhead hc hslash]
    simp only [Router.ServeHTTP, hm, hp, find_static P root hres.2.2, Handler.ServeHTTP]
  refine ⟨?_, ?_, hserve, ?_, ?_⟩
  · rw [fileServer_no_slash r P root hhead hc hslash]
  · rw [fileServer_no_slash r P root hhead hc hslash]
    simp [Router.routes, List.filterMap_append]
  · intro hplain hclean fs
    have hp : (⟨Method.GET, P, []⟩ : Request).routePath = P := by
      simp [Request.routePath, hne]
    rw [Router.respond, hserve _ rfl hp, Reply.respond,
      redirectLocation_prefix P hhead hslash hplain hclean]
    rfl
  · intro wd fs
    rfl

/-- C2 as amended, at the prefix "/assets". -/
theorem C2_fileServer_redirect_witness :
    (FileServer NewRouter "/assets".toList "pub".toList).router.respond (fun _ => none)
        ⟨Method.GET, "/assets".toList, []⟩ =
      some (Response.redirect 301 ("/assets".toList ++ ['/'])) :=
  (C2_fileServer_redirect NewRouter "/assets".toList "pub".toList
    (by decide) (by decide) (by decide) (by decide)).2.2.2.1 (by decide) (by decide)
    (fun _ => none)

/-- C2 as stated fails at the prefix "static", which meets its conditions:
FileServer ends in the panic of chi and registers no route.  And at the prefix
"/a//b" the Location of the redirect is the cleaned "/a/b/", not "/a//b/". -/
theorem C2_counterexample :
    ("static".toList ≠ [] ∧ "static".toList ≠ ['/'] ∧
      ContainsAny "static".toList reserved = false ∧
      "static".toList.getLast? ≠ some '/') ∧
    (FileServer NewRouter "static".toList "pub".toList).fault =
      some (Fault.routingPattern "static".toList) ∧
    (FileServer NewRouter "static".toList "pub".toList).router.routes = [] ∧
    (FileServer NewRouter "/a//b".toList "pub".toList).router.respond (fun _ => none)
      ⟨Method.GET, "/a//b".toList, []⟩ = some (Response.redirect 301 "/a/b/".toList) := by
  decide

/-- C9, as amended: for a path without reserved characters, FileServer ends
without a fault exactly when the path begins with a slash.  The index
len(path)-1 is in bounds for every non-empty path; on the empty path the call
faults with "index out of range"; on a non-empty path without a leading slash
it faults in `r.Get`, with the panic of chi for the pattern.  In both cases no
route has been registered. -/
theorem C9_fileServer_fault_iff_slash (r : Router) (path root : GoString)
    (hres : '{' ∉ path ∧ '}' ∉ path ∧ '*' ∉ path) :
    ((FileServer r path root).fault = none ↔ path.head? = some '/') ∧
    (path ≠ [] → (byteAt path ((path.length : Int) - 1)).isSome = true) ∧
    (path = [] → FileServer r path root = ⟨r, some Fault.indexOutOfRange⟩) ∧
    (path ≠ [] → path.head? ≠ some '/' →
      FileServer r path root =
        ⟨r, some (Fault.routingPattern
          (if path.getLast? = some '/' then path ++ ['*'] else path))⟩) := by
  have hc := (containsAny_reserved_false path).mpr hres
  refine ⟨?_, ?_, ?_, ?_⟩
  · constructor
    · intro hf
      by_contra hh
      by_cases hp : path = []
      · subst hp
        rw [fileServer_nil] at hf
        simp at hf
      · rw [fileServer_bad_head r path root hp hc hh] at hf
        simp at hf
    · intro hh
      by_cases hs : path.getLast? = some '/'
      · rw [fileServer_slash r path root hh hc hs]
      · rw [fileServer_no_slash r path root hh hc hs]
  · intro hne
    rw [byteAt_last path hne]
    cases hl : path.getLast? with
    | none => exact absurd (List.getLast?_eq_none_iff.mp hl) hne
    | some c => rfl
  · intro hp
    subst hp
    exact fileServer_nil r root
  · intro hne hh
    exact fileServer_bad_head r path root hne hc hh

/-- C9 as amended, at the path "/static". -/
theorem C9_fileServer_fault_iff_slash_witness :
    ((FileServer NewRouter "/static".toList []).fault = none ↔
      "/static".toList.head? = some '/') :=
  (C9_fileServer_fault_iff_slash NewRouter "/static".toList [] (by decide)).1

/-- C9 as stated fails at the path "static": it has no reserved character and
is not empty, yet FileServer faults, in the call of `r.Get`. -/
theorem C9_counterexample :
    ContainsAny "static".toList reserved = false ∧
    ¬ ((FileServer NewRouter "static".toList []).fault = none ↔ "static".toList ≠ []) := by
  decide

/-- C10, as amended: for a prefix P that begins with a slash, has no reserved
character and does not end in a slash, the calls with P and with P + "/"
register the same wildcard route, with pattern P + "/*" and the same handler,
which strips the prefix P in both; the call with P registers the redirect
route for P before it and nothing else, the call with P + "/" registers only
the wildcard route, and so does the call with "/". -/
theorem C10_fileServer_trailing_slash (r : Router) (P root : GoString)
    (hhead : P.head? = some '/') (hres : '{' ∉ P ∧ '}' ∉ P ∧ '*' ∉ P)
    (hslash : P.getLast? ≠ some '/') :
    FileServer r P root =
      ⟨⟨r.entries ++ [Entry.route Method.GET P (Handler.redirect (P ++ ['/']) 301),
        Entry.route Method.GET (P ++ ['/', '*']) (Handler.fileServer root)]⟩, none⟩ ∧
    FileServer r (P ++ ['/']) root =
      ⟨⟨r.entries ++ [Entry.route Method.GET (P ++ ['/', '*']) (Handler.fileServer root)]⟩,
        none⟩ ∧
    FileServer r ['/'] root =
      ⟨⟨r.entries ++ [Entry.route Method.GET ['/', '*'] (Handler.fileServer root)]⟩, none⟩ ∧
    TrimSuffix (P ++ ['/', '*']) ['/', '*'] = P := by
  have hc := (containsAny_reserved_false P).mpr hres
  have hc2 : ContainsAny (P ++ ['/']) reserved = false := by
    rw [containsAny_reserved_false]
    simp [hres]
  refine ⟨fileServer_no_slash r P root hhead hc hslash, ?_, ?_, trimSuffix_append _ _⟩
  · rw [fileServer_slash r (P ++ ['/']) root (head?_append_of_head? _ _ _ hhead) hc2 (by simp)]
    simp
  · exact fileServer_slash r ['/'] root rfl (by decide) rfl

/-- C10 as amended, at the prefix "/s". -/
theorem C10_fileServer_trailing_slash_witness :
    FileServer NewRouter ("/s".toList ++ ['/']) "pub".toList =
      ⟨⟨NewRouter.entries ++
        [Entry.route Method.GET ("/s".toList ++ ['/', '*']) (Handler.fileServer "pub".toList)]⟩,
        none⟩ :=
  (C10_fileServer_trailing_slash NewRouter "/s".toList "pub".toList
    (by decide) (by decide) (by decide)).2.1

/-- C10 as stated fails at the prefix "static", which meets its conditions:
the call with "static" and the call with "static/" both end in the panic of
chi and register nothing. -/
theorem C10_counterexample :
    ("static".toList ≠ [] ∧ ContainsAny "static".toList reserved = false ∧
      "static".toList.getLast? ≠ some '/') ∧
    FileServer NewRouter "static".toList "pub".toList =
      ⟨NewRouter, some (Fault.routingPattern "static".toList)⟩ ∧
    FileServer NewRouter ("static".toList ++ ['/']) "pub".toList =
      ⟨NewRouter, some (Fault.routingPattern "static/*".toList)⟩ := by
  decide

/-! ## The claims about the HTML routes and the unmatched paths -/

/-- C5, as amended: for a route path that begins with a slash and has no
pattern syntax, AddHTMLRoute registers the GET route whose handler calls
ServeFile on the file system of the request; a GET whose URL path has no ".."
element and does not end in "/index.html" is answered with the contents the
named file has at the time of that request, with status 200: when the file
holds `c1` at one request and `c2` at a later one, the later response has body
`c2`.  With index.html holding "<h1>hi</h1>", the router main builds answers
GET "/" with status 200 and that body. -/
theorem C5_html_route_reads_current_file (r : Router) (routePath filePath : GoString)
    (fs1 fs2 : FileSystem) (req1 req2 : Request) (c1 c2 : GoString)
    (hhead : routePath.head? = some '/')
    (_hres : '{' ∉ routePath ∧ '}' ∉ routePath ∧ '*' ∉ routePath)
    (_hm1 : req1.method = Method.GET) (_hm2 : req2.method = Method.GET)
    (hd1 : containsDotDot req1.path = false)
    (hi1 : HasSuffix req1.path "/index.html".toList = false)
    (hd2 : containsDotDot req2.path = false)
    (hi2 : HasSuffix req2.path "/index.html".toList = false)
    (h1 : fs1 filePath = some c1) (h2 : fs2 filePath = some c2) :
    AddHTMLRoute r routePath filePath =
      ⟨⟨r.entries ++ [Entry.route Method.GET routePath (Handler.serveFile filePath)]⟩, none⟩ ∧
    (∀ (fs : FileSystem) (req : Request), req.method = Method.GET →
      ((Handler.serveFile filePath).ServeHTTP routePath req).respond fs =
        some (ServeFile fs req.path filePath)) ∧
    ((Handler.serveFile filePath).ServeHTTP routePath req1).respond fs1 =
      some (Response.content 200 c1) ∧
    ((Handler.serveFile filePath).ServeHTTP routePath req2).respond fs2 =
      some (Response.content 200 c2) ∧
    (∀ (wd : GoString) (fs : FileSystem),
      fs (Join [baseDir wd, "index.html".toList]) = some "<h1>hi</h1>".toList →
      (main wd).router.respond fs ⟨Method.GET, "/".toList, []⟩ =
        some (Response.content 200 "<h1>hi</h1>".toList)) := by
  refine ⟨get_ok _ _ _ hhead, fun _ _ _ => rfl, ?_, ?_, ?_⟩
  · simp only [Handler.ServeHTTP, Reply.respond, ServeFile, hd1, hi1, h1, Bool.false_eq_true,
      if_false]
  · simp only [Handler.ServeHTTP, Reply.respond, ServeFile, hd2, hi2, h2, Bool.false_eq_true,
      if_false]
  · intro wd fs h
    have hr : (main wd).router.ServeHTTP ⟨Method.GET, "/".toList, []⟩ =
        Reply.serveFile (Join [baseDir wd, "index.html".toList]) "/".toList := rfl
    have hd : containsDotDot "/".toList = false := by decide
    have hi : HasSuffix "/".toList "/index.html".toList = false := by decide
    rw [Router.respond, hr, Reply.respond, ServeFile, if_neg (by rw [hd]; decide),
      if_neg (by rw [hi]; decide), h]

/-- C5 as amended, at a file whose contents change from "old" to "new". -/
theorem C5_html_route_reads_current_file_witness :
    ((Handler.serveFile "index.html".toList).ServeHTTP "/".toList
        ⟨Method.GET, "/".toList, []⟩).respond (fun _ => some "new".toList) =
      some (Response.content 200 "new".toList) :=
  (C5_html_route_reads_current_file NewRouter "/".toList "index.html".toList
    (fun _ => some "old".toList) (fun _ => some "new".toList)
    ⟨Method.GET, "/".toList, []⟩ ⟨Method.GET, "/".toList, []⟩ "old".toList "new".toList
    (by decide) (by decide) rfl rfl (by decide) (by decide) (by decide) (by decide)
    rfl rfl).2.2.2.1

/-- C5 as stated fails for the route path "/index.html": the route is
registered and the file is there, yet the GET for "/index.html" is answered
with the redirect to "./", not with the contents.  It fails for the route
path "/a/.." too, where the answer is 400, and for the route path "page",
where AddHTMLRoute ends in the panic of chi and registers nothing. -/
theorem C5_counterexample :
    (AddHTMLRoute NewRouter "/index.html".toList "f".toList).fault = none ∧
    (AddHTMLRoute NewRouter "/index.html".toList "f".toList).router.respond
      (fun _ => some "x".toList) ⟨Method.GET, "/index.html".toList, []⟩ =
      some (Response.redirect 301 "./".toList) ∧
    (AddHTMLRoute NewRouter "/a/..".toList "f".toList).router.respond
      (fun _ => some "x".toList) ⟨Method.GET, "/a/..".toList, []⟩ =
      some (Response.error 400) ∧
    AddHTMLRoute NewRouter "page".toList "f".toList =
      ⟨NewRouter, some (Fault.routingPattern "page".toList)⟩ := by
  decide

/-- C6, as amended: a GET, as the URL parser delivers it, whose URL path is
not empty, is none of "/", "/classic-form", "/paper-form", "/_next/static" and
does not begin with "/_next/static/" is matched by none of the routes main
registered, and the router answers it with its not-found reply, status 404. -/
theorem C6_main_not_found (wd : GoString) (req : Request)
    (_hm : req.method = Method.GET) (hwf : req.wellFormed = true) (hne : req.path ≠ [])
    (h1 : req.path ≠ "/".toList) (h2 : req.path ≠ "/classic-form".toList)
    (h3 : req.path ≠ "/paper-form".toList) (h4 : req.path ≠ "/_next/static".toList)
    (h5 : ¬ "/_next/static/".toList <+: req.path) :
    (∀ rt ∈ (main wd).router.routes, matchPattern rt.pattern req.routePath = false) ∧
    (main wd).router.ServeHTTP req = Reply.notFound ∧
    (∀ fs, (main wd).router.respond fs req = some (Response.error 404)) := by
  have hstatic : ∀ lit : GoString, '%' ∉ lit → '*' ∉ lit → req.path ≠ lit →
      matchPattern lit req.routePath = false := by
    intro lit hl hs hp
    rw [matchPattern_static _ _ hs]
    cases hb : (lit == req.routePath) with
    | false => rfl
    | true =>
      have e : req.routePath = lit := by
        have : lit = req.routePath := by simpa using hb
        exact this.symm
      exact absurd (routePath_eq req hwf hne lit hl e) hp
  have m1 := hstatic "/_next/static".toList (by decide) (by decide) h4
  have m2 : matchPattern "/_next/static/*".toList req.routePath = false := by
    have e : "/_next/static/*".toList = "/_next/static/".toList ++ ['*'] := rfl
    rw [e, matchPattern_wild]
    apply hasPrefix_false
    intro h
    exact h5 (routePath_continues req hwf hne _ (by decide) h)
  have m3 := hstatic "/".toList (by decide) (by decide) h1
  have m4 := hstatic "/classic-form".toList (by decide) (by decide) h2
  have m5 := hstatic "/paper-form".toList (by decide) (by decide) h3
  have hall : ∀ rt ∈ (main wd).router.routes, matchPattern rt.pattern req.routePath = false := by
    intro rt hrt
    rw [main_routes] at hrt
    simp only [List.mem_cons, List.mem_singleton, List.not_mem_nil, or_false] at hrt
    rcases hrt with h | h | h | h | h <;> rw [h] <;> assumption
  have hnf := serveHTTP_notFound (main wd).router req hall
  refine ⟨hall, hnf, ?_⟩
  intro fs
  rw [Router.respond, hnf]
  rfl

/-- C6 as amended, at the path "/about". -/
theorem C6_main_not_found_witness :
    (main "/srv/app".toList).router.ServeHTTP ⟨Method.GET, "/about".toList, []⟩ =
      Reply.notFound :=
  (C6_main_not_found "/srv/app".toList ⟨Method.GET, "/about".toList, []⟩ rfl (by decide)
    (by decide) (by decide) (by decide) (by decide) (by decide) (by decide)).2.1

/-- C6 as stated fails for the GET whose URL path is empty: the path is none
of the four and does not begin with "/_next/static/", yet chi routes it as "/"
and the router serves index.html, with status 200 when the file is there. -/
theorem C6_counterexample :
    (([] : GoString) ≠ "/".toList ∧ ([] : GoString) ≠ "/classic-form".toList ∧
      ([] : GoString) ≠ "/paper-form".toList ∧ ([] : GoString) ≠ "/_next/static".toList ∧
      ¬ "/_next/static/".toList <+: ([] : GoString)) ∧
    (⟨Method.GET, [], []⟩ : Request).wellFormed = true ∧
    (main "/srv/app".toList).router.ServeHTTP ⟨Method.GET, [], []⟩ =
      Reply.serveFile "/srv/ui/dist/index.html".toList [] ∧
    (main "/srv/app".toList).router.respond (fun _ => some "x".toList) ⟨Method.GET, [], []⟩ =
      some (Response.content 200 "x".toList) := by
  decide

end Nectar
